import Mathlib

/-!
# Verification of the TachFile_To Evidence Runtime

Shallow embedding of the deletion pipeline (Naming Contract, Audit Ledger,
Executioner, Janitor), the Resource Court, the L2 image cache of
`elite_pdf`'s `CacheRegistry`, and the `BackpressureController`.

Conventions used throughout:
* Rust `u64`/`u32`/`usize` values that are only ever added, compared, or
  saturating-subtracted are modelled as `Nat` (saturating_sub is `Nat.sub`).
* Rust `f64` values that only enter decimal-literal comparisons and
  weighted sums are modelled as `ℚ`, with the decimal literals taken at
  their exact rational value.
* `HashMap` / `BTreeMap` are modelled as association lists where insertion
  removes any previous binding of the key and appends the new one;
  `VecDeque` is a `List` whose head is the deque front.
* Fallible calls return `Except`; the filesystem is a list of file names,
  and `fs::remove_file` succeeds exactly when the name is present,
  failing with `NotFound` otherwise (no permission model is needed by the
  claims).
* Wall-clock reads (`current_timestamp()`) become explicit `now : Nat`
  arguments.
-/

namespace TachFileTo

/-- Equality on `Except` results is decidable componentwise (used to
evaluate the model at concrete inputs). -/
instance {ε α : Type} [DecidableEq ε] [DecidableEq α] : DecidableEq (Except ε α) := fun a b =>
  match a, b with
  | Except.ok x, Except.ok y =>
      if h : x = y then Decidable.isTrue (congrArg Except.ok h)
      else Decidable.isFalse (fun hc => h (Except.ok.inj hc))
  | Except.error x, Except.error y =>
      if h : x = y then Decidable.isTrue (congrArg Except.error h)
      else Decidable.isFalse (fun hc => h (Except.error.inj hc))
  | Except.ok _, Except.error _ => Decidable.isFalse (fun hc => Except.noConfusion hc)
  | Except.error _, Except.ok _ => Decidable.isFalse (fun hc => Except.noConfusion hc)

/-! ## Naming Contract (`src/ui/src-tauri/src/executioner/api.rs`) -/

/-- `FileOrigin` from `api.rs`: `Ghost` is an Owned cache artifact,
`Alien` a Foreign (user) file. -/
inductive FileOrigin where
  | Ghost
  | Alien
deriving DecidableEq, Repr

/-- Rust's `str::starts_with` over the character sequence of a string. -/
def strStartsWith (s front : String) : Bool :=
  front.data.isPrefixOf s.data

/-- Rust's `str::ends_with` over the character sequence of a string. -/
def strEndsWith (s back : String) : Bool :=
  back.data.isSuffixOf s.data

/-- Rust's `str::split` on a single separator character: the pieces
between occurrences of the separator (adjacent separators give empty
pieces, like the Rust iterator). -/
def splitChar (c : Char) : List Char → List (List Char)
  | [] => [[]]
  | x :: xs =>
      match splitChar c xs with
      | [] => [[]]
      | piece :: rest => if x = c then [] :: piece :: rest else (x :: piece) :: rest

/-- `NamingContract::validate` from `api.rs`: requires the literal
front marker `TFT_`, the literal back marker `.tft_cache`, at least
three underscore-separated middle parts, and an all-numeric third part.
Rust's `char::is_numeric` is modelled as `Char.isDigit` (they agree on
ASCII, the only characters the system writes into cache names).
The reasons list mirrors the source's messages up to paraphrase; when
`parts.get(2)` is absent the source falls through to success, which is
unreachable because the length check guarantees a third part. -/
def NamingContract.validate (fileName : String) : Bool × List String :=
  if ¬ strStartsWith fileName "TFT_" then
    (false, ["Missing TFT_ marker at start"])
  else if ¬ strEndsWith fileName ".tft_cache" then
    (false, ["Missing .tft_cache marker at end"])
  else
    -- strip the 4-char front marker and the 10-char back marker
    let middle := (fileName.data.drop 4).take (fileName.data.length - 14)
    let parts := splitChar '_' middle
    if parts.length < 3 then
      (false, ["Invalid format: need at least 3 underscore-separated parts"])
    else
      match parts.get? 2 with
      | some tsPart =>
          if ¬ tsPart.all Char.isDigit then
            (false, ["Timestamp part is not numeric"])
          else
            (true, [])
      | none => (true, [])

/-- `NamingContract::classify` from `api.rs`. -/
def NamingContract.classify (fileName : String) : FileOrigin :=
  if (NamingContract.validate fileName).1 then FileOrigin.Ghost else FileOrigin.Alien

/-! ## Quiesce signal (`api.rs`) -/

/-- `QuiesceSignal` from `api.rs`. -/
inductive QuiesceSignal where
  | None
  | Pending (file_id_hash : Nat) (deadline_unix_sec : Nat)
  | Global (deadline_unix_sec : Nat)
deriving DecidableEq, Repr

/-- `QuiesceSignal::applies_to` from `api.rs`. -/
def QuiesceSignal.appliesTo : QuiesceSignal → Nat → Bool
  | QuiesceSignal.None, _ => false
  | QuiesceSignal.Pending targetHash _, h => targetHash = h
  | QuiesceSignal.Global _, _ => true

/-- `QuiesceSignal::is_expired` from `api.rs`, with the
`current_timestamp()` read made an explicit argument. -/
def QuiesceSignal.isExpired : QuiesceSignal → Nat → Bool
  | QuiesceSignal.None, _ => false
  | QuiesceSignal.Pending _ deadline, now => deadline < now
  | QuiesceSignal.Global deadline, now => deadline < now

/-- `hash_file_id` from `api.rs`: FNV-1a over the UTF-8 bytes of the id,
with `u64` wrapping arithmetic made explicit by reducing modulo `2 ^ 64`. -/
def hashFileId (fileId : String) : Nat :=
  fileId.toUTF8.toList.foldl
    (fun h b => ((h ^^^ b.toNat) * 0x100000001b3) % 2 ^ 64)
    0xcbf29ce484222325

/-! ## Resource Court data model (`src/ui/src-tauri/src/resource_court.rs`) -/

/-- `EvictionAction` from `resource_court.rs`. -/
inductive EvictionAction where
  | Retain
  | Monitor
  | SoftDelete
  | HardDelete
deriving DecidableEq, Repr

/-- `EvictionSeverity` from `resource_court.rs`; the Rust enum derives
`Ord` with declaration order Low < Medium < High < Critical. -/
inductive EvictionSeverity where
  | Low
  | Medium
  | High
  | Critical
deriving DecidableEq, Repr

/-- Rank realizing the derived `Ord` of `EvictionSeverity`. -/
def EvictionSeverity.rank : EvictionSeverity → Nat
  | EvictionSeverity.Low => 0
  | EvictionSeverity.Medium => 1
  | EvictionSeverity.High => 2
  | EvictionSeverity.Critical => 3

/-- `CacheEntry` from `resource_court.rs` (the registry record). -/
structure CacheEntryR where
  file_id : String
  file_path : String
  file_size_bytes : Nat
  file_count : Nat
  created_at : Nat
  last_accessed_at : Nat
  access_count : Nat
  user_pinned : Bool
  viewport_distance : ℚ
deriving DecidableEq, Repr

/-- `EntropyMetrics` from `resource_court.rs`. -/
structure EntropyMetrics where
  file_count : Nat
  subdirectory_count : Nat
  avg_file_size_bytes : Nat
  entropy_factor : ℚ
deriving DecidableEq, Repr

/-- `EvictionScore` from `resource_court.rs`. -/
structure EvictionScore where
  file_id : String
  size_component : ℚ
  age_component : ℚ
  viewport_component : ℚ
  entropy_component : ℚ
  total_score : ℚ
  severity_level : EvictionSeverity
deriving DecidableEq, Repr

/-- `EvictionVerdict` from `resource_court.rs`. The `reason` field of the
source (a formatted log string interpolating the four float components)
is not modelled; no claim mentions it. -/
structure EvictionVerdict where
  file_id : String
  action : EvictionAction
  score : ℚ
  timestamp : Nat
  is_reversible : Bool
deriving DecidableEq, Repr

/-- `EvictionPolicy` from `resource_court.rs`. -/
structure EvictionPolicy where
  max_cache_size_bytes : Nat
  min_age_seconds : Nat
  size_weight : ℚ
  age_weight : ℚ
  viewport_weight : ℚ
  entropy_weight : ℚ
  eviction_threshold_critical : ℚ
  eviction_threshold_high : ℚ
  eviction_threshold_medium : ℚ
deriving DecidableEq, Repr

/-! ## Cache Registry of the Court (`resource_court.rs`) -/

/-- Association-list insertion with `HashMap::insert` semantics: drop any
previous binding of the key and append the new one. -/
def insertAssoc (entries : List (String × CacheEntryR)) (k : String) (v : CacheEntryR) :
    List (String × CacheEntryR) :=
  entries.filter (fun p => p.1 ≠ k) ++ [(k, v)]

/-- `CacheRegistry` from `resource_court.rs`: facts table plus the
running `total_size_bytes`. -/
structure CacheRegistryR where
  entries : List (String × CacheEntryR)
  total_size_bytes : Nat
  last_updated : Nat
deriving DecidableEq, Repr

/-- `CacheRegistry::new` from `resource_court.rs` (its
`current_timestamp()` read is the explicit `now`). -/
def CacheRegistryR.new (now : Nat) : CacheRegistryR :=
  { entries := [], total_size_bytes := 0, last_updated := now }

/-- `CacheRegistry::register_entry` from `resource_court.rs`: the entry
size is added to the total unconditionally, then the entry is inserted
(replacing any previous binding of the same `file_id`). -/
def CacheRegistryR.registerEntry (reg : CacheRegistryR) (entry : CacheEntryR) (now : Nat) :
    CacheRegistryR :=
  { entries := insertAssoc reg.entries entry.file_id entry
    total_size_bytes := reg.total_size_bytes + entry.file_size_bytes
    last_updated := now }

/-- `CacheRegistry::touch_entry` from `resource_court.rs`. -/
def CacheRegistryR.touchEntry (reg : CacheRegistryR) (fileId : String) (now : Nat) :
    CacheRegistryR × Bool :=
  if reg.entries.any (fun p => p.1 = fileId) then
    ({ reg with
        entries := reg.entries.map (fun p =>
          if p.1 = fileId then
            (p.1, { p.2 with last_accessed_at := now, access_count := p.2.access_count + 1 })
          else p)
        last_updated := now }, true)
  else
    (reg, false)

/-- Sum of `file_size_bytes` over the entries currently in the registry. -/
def CacheRegistryR.sumSizes (reg : CacheRegistryR) : Nat :=
  (reg.entries.map (fun p => p.2.file_size_bytes)).sum

/-- An operation on the Court's registry, for stating C3's quantification
over register/touch sequences. -/
inductive RegistryOp where
  | register (entry : CacheEntryR) (now : Nat)
  | touch (fileId : String) (now : Nat)

/-- Apply one `RegistryOp`. -/
def CacheRegistryR.applyOp (reg : CacheRegistryR) : RegistryOp → CacheRegistryR
  | RegistryOp.register entry now => reg.registerEntry entry now
  | RegistryOp.touch fileId now => (reg.touchEntry fileId now).1

/-- Apply a sequence of `RegistryOp`s from left to right. -/
def CacheRegistryR.applyOps (reg : CacheRegistryR) (ops : List RegistryOp) : CacheRegistryR :=
  ops.foldl CacheRegistryR.applyOp reg

/-- The `file_id`s of the `register` operations in a sequence. -/
def registeredIds : List RegistryOp → List String
  | [] => []
  | RegistryOp.register entry _ :: ops => entry.file_id :: registeredIds ops
  | RegistryOp.touch _ _ :: ops => registeredIds ops

/-! ## Resource Court judgment (`resource_court.rs`) -/

/-- `calculate_entropy` from `resource_court.rs`. -/
def calculateEntropy (entry : CacheEntryR) : EntropyMetrics :=
  let entropy_factor : ℚ :=
    if entry.file_count = 0 then 0
    else min ((entry.file_count : ℚ) / 1000) 1
  { file_count := entry.file_count
    subdirectory_count := 1
    avg_file_size_bytes := if 0 < entry.file_count then entry.file_size_bytes / entry.file_count else 0
    entropy_factor := entropy_factor }

/-- `ResourceCourt::calculate_eviction_score` from `resource_court.rs`. -/
def calculateEvictionScore (policy : EvictionPolicy) (entry : CacheEntryR)
    (entropy : EntropyMetrics) (currentTime : Nat) : EvictionScore :=
  let size_ratio : ℚ := (entry.file_size_bytes : ℚ) / (policy.max_cache_size_bytes : ℚ)
  let size_component := policy.size_weight * min size_ratio 1
  let age_seconds := currentTime - entry.created_at
  let age_factor : ℚ :=
    if policy.min_age_seconds < age_seconds then
      min ((age_seconds : ℚ) / (86400 * 30)) 1
    else 0
  let age_component := policy.age_weight * age_factor
  let viewport_component := policy.viewport_weight * min entry.viewport_distance 1
  let entropy_component := policy.entropy_weight * entropy.entropy_factor
  let total_score := size_component + age_component + viewport_component + entropy_component
  let severity_level :=
    if policy.eviction_threshold_critical ≤ total_score then EvictionSeverity.Critical
    else if policy.eviction_threshold_high ≤ total_score then EvictionSeverity.High
    else if policy.eviction_threshold_medium ≤ total_score then EvictionSeverity.Medium
    else EvictionSeverity.Low
  { file_id := entry.file_id
    size_component := size_component
    age_component := age_component
    viewport_component := viewport_component
    entropy_component := entropy_component
    total_score := total_score
    severity_level := severity_level }

/-- `ResourceCourt::render_verdict` from `resource_court.rs`: the guard
chain deciding the action, and `is_reversible` set from the action. The
float literal `0.1` is the exact rational `1/10`. -/
def renderVerdict (policy : EvictionPolicy) (entry : CacheEntryR) (score : EvictionScore)
    (currentCacheSize : Nat) (now : Nat) : EvictionVerdict :=
  let action :=
    if entry.user_pinned then EvictionAction.Retain
    else if entry.viewport_distance < 1/10 ∧ 5 < entry.access_count then EvictionAction.Retain
    else if score.severity_level = EvictionSeverity.Critical ∧
        policy.max_cache_size_bytes < currentCacheSize then EvictionAction.HardDelete
    else if EvictionSeverity.High.rank ≤ score.severity_level.rank then EvictionAction.SoftDelete
    else if score.severity_level = EvictionSeverity.Medium then EvictionAction.Monitor
    else EvictionAction.Retain
  { file_id := entry.file_id
    action := action
    score := score.total_score
    timestamp := now
    is_reversible := action ≠ EvictionAction.HardDelete }

/-- `ResourceCourt::judge_entries` from `resource_court.rs`: score and
judge every registry entry (iteration order of the `HashMap` values is
the list order of the model). -/
def judgeEntries (policy : EvictionPolicy) (registry : CacheRegistryR)
    (currentCacheSize : Nat) (now : Nat) : List EvictionVerdict :=
  registry.entries.map (fun p =>
    let entropy := calculateEntropy p.2
    let score := calculateEvictionScore policy p.2 entropy now
    renderVerdict policy p.2 score currentCacheSize now)

/-- The verdict policy exactly as the specification words it, for the
refinement claim C6: rules applied in order, first match wins.
1. `user_pinned` implies Retain; 2. in-viewport and frequently accessed
implies Retain; 3. Critical severity with the cache over limit implies
HardDelete; 4. severity at least High implies SoftDelete; 5. Medium
implies Monitor; 6. otherwise Retain. -/
def courtActionSpec (maxCacheBytes : Nat) (userPinned : Bool) (viewportDistance : ℚ)
    (accessCount : Nat) (severity : EvictionSeverity) (currentCacheSize : Nat) :
    EvictionAction :=
  if userPinned then EvictionAction.Retain
  else if viewportDistance < 1/10 ∧ 5 < accessCount then EvictionAction.Retain
  else if severity = EvictionSeverity.Critical ∧ maxCacheBytes < currentCacheSize then
    EvictionAction.HardDelete
  else if EvictionSeverity.High.rank ≤ severity.rank then EvictionAction.SoftDelete
  else if severity = EvictionSeverity.Medium then EvictionAction.Monitor
  else EvictionAction.Retain

/-! ## Audit Ledger (`src/ui/src-tauri/src/executioner/ledger.rs`)

`SqliteLedger` keeps three append-only tables; the model keeps the two
the claims touch (`execution_warrants`, `execution_events`) as lists in
insertion order. SQL failures surface as `Except.error` with a marker
string. -/

/-- `WarrantEntry` from `ledger.rs` (the `signature` BLOB is carried as a
byte list). -/
structure WarrantEntry where
  nonce : String
  issued_at_unix : Nat
  target_path : String
  action : String
  signature : List Nat
  court_version : String
deriving DecidableEq, Repr

/-- `ExecutionEventEntry` from `ledger.rs`. -/
structure ExecutionEventEntry where
  id : Nat
  warrant_nonce : String
  executed_at_unix : Nat
  executor_id : String
  result : String
  errno : Option Int
deriving DecidableEq, Repr

/-- The persistent state of `SqliteLedger`. -/
structure Ledger where
  warrants : List WarrantEntry
  events : List ExecutionEventEntry
deriving DecidableEq, Repr

/-- The empty ledger (`SqliteLedger::open_memory` on a fresh database). -/
def Ledger.empty : Ledger := { warrants := [], events := [] }

/-- Basename of a path: the part after the last `/` (model of
`Path::file_name` for the UTF-8 paths the system uses). -/
def basename (path : String) : String :=
  match (splitChar '/' path.data).getLast? with
  | some b => String.mk b
  | none => path

/-- `SqliteLedger::append_warrant` from `ledger.rs`: rejects a target
whose string (and whose basename) lacks the `TFT_` front marker, then
inserts; the `nonce` PRIMARY KEY and the CHECK constraint on `action`
make a duplicate nonce or an unknown action an SQL error. Returns the
`ledger_ref` string built from the nonce and the current time. -/
def Ledger.appendWarrant (l : Ledger) (w : WarrantEntry) (now : Nat) :
    Except String (Ledger × String) :=
  let nameOk := strStartsWith w.target_path "TFT_" ∨ strStartsWith (basename w.target_path) "TFT_"
  if ¬ nameOk then Except.error "InvalidQuery"
  else if l.warrants.any (fun w0 => w0.nonce = w.nonce) then Except.error "ConstraintViolation"
  else if ¬ (w.action = "SOFT_DELETE" ∨ w.action = "HARD_DELETE") then
    Except.error "ConstraintViolation"
  else
    Except.ok ({ l with warrants := l.warrants ++ [w] },
      "LE_" ++ w.nonce ++ "_" ++ toString now)

/-- `SqliteLedger::record_execution` from `ledger.rs`: the referenced
warrant must already exist, otherwise `QueryReturnedNoRows`; the stored
event receives the next AUTOINCREMENT id. -/
def Ledger.recordExecution (l : Ledger) (e : ExecutionEventEntry) : Except String Ledger :=
  if ¬ l.warrants.any (fun w => w.nonce = e.warrant_nonce) then
    Except.error "QueryReturnedNoRows"
  else
    Except.ok { l with events := l.events ++ [{ e with id := l.events.length + 1 }] }

/-- `SqliteLedger::is_warrant_executed` from `ledger.rs`: some event with
this nonce and result `SUCCESS` exists. -/
def Ledger.isWarrantExecuted (l : Ledger) (nonce : String) : Bool :=
  l.events.any (fun e => e.warrant_nonce = nonce ∧ e.result = "SUCCESS")

/-- `SqliteLedger::get_pending_warrants` from `ledger.rs`: warrants with
no `SUCCESS` event. -/
def Ledger.getPendingWarrants (l : Ledger) : List WarrantEntry :=
  l.warrants.filter (fun w =>
    ¬ l.events.any (fun e => e.warrant_nonce = w.nonce ∧ e.result = "SUCCESS"))

/-! ## Executioner (`src/ui/src-tauri/src/executioner/api.rs`, `executor.rs`) -/

/-- `ExecutionError` from `api.rs`. -/
inductive ExecutionErrorE where
  | FileNotFound
  | PermissionDenied
  | IoError (msg : String)
  | FileLocked
  | WarrantAlreadyExecuted
  | WarrantNotInLedger
  | SystemQuiesced
deriving DecidableEq, Repr

/-- `ExecutionResult` from `ledger.rs`. -/
inductive ExecutionResultE where
  | Success
  | FailPermission
  | FailIo
  | FailLocked
deriving DecidableEq, Repr

/-- `ExecutionResult::as_str` from `ledger.rs`. -/
def ExecutionResultE.asStr : ExecutionResultE → String
  | ExecutionResultE.Success => "SUCCESS"
  | ExecutionResultE.FailPermission => "FAIL_PERMISSION"
  | ExecutionResultE.FailIo => "FAIL_IO"
  | ExecutionResultE.FailLocked => "FAIL_LOCKED"

/-- `ExecutionWarrant` from `api.rs` (verdict plus the monotonic nonce). -/
structure ExecutionWarrant where
  verdict : EvictionVerdict
  nonce : Nat
  issued_at : Nat
  signature : String
  ledger_ref : Option String
deriving DecidableEq, Repr

/-- Rust's `format!` of a `u64` with `{:016x}`: sixteen lowercase hex
digits, zero padded (`Nat.toDigits 16` produces the lowercase hex
digits, most significant first). -/
def hex16 (n : Nat) : String :=
  let ds := Nat.toDigits 16 n
  String.mk (List.replicate (16 - ds.length) '0' ++ ds)

/-- `ExecutionWarrant::warrant_id` from `api.rs`. -/
def ExecutionWarrant.warrantId (w : ExecutionWarrant) : String :=
  "WARRANT_" ++ hex16 w.nonce

/-- `ExecutionReport` from `api.rs`. -/
structure ExecutionReport where
  warrant_nonce : Nat
  file_id : String
  action : EvictionAction
  success : Bool
  error : Option ExecutionErrorE
  completed_at : Nat
  audit_detail : Option String
deriving DecidableEq, Repr

/-- The filesystem, as the list of file names present on disk. -/
abbrev FileSystem := List String

/-- `std::fs::remove_file` on this filesystem model: removes a present
file, fails with NotFound otherwise. -/
def removeFile (fs : FileSystem) (path : String) : Except Unit FileSystem :=
  if path ∈ fs then Except.ok (fs.erase path) else Except.error ()

/-- `FilesystemExecutioner::execute` from `executor.rs`, with the clock
made explicit. Steps exactly as in the source: (1) idempotence check
against the Ledger, then membership in the pending warrants, failing
`WarrantNotInLedger`; (2) perform the action — `SoftDelete` is
registry-only (no filesystem change), `HardDelete` removes the file with
NotFound treated as success, any other action returns an `IoError`
before anything is recorded; (3) record the `ExecutionEvent`;
(4) build the report. Returns the new ledger, the new filesystem and
the call's result. -/
def execute (l : Ledger) (fs : FileSystem) (w : ExecutionWarrant) (executorId : String)
    (now : Nat) : Ledger × FileSystem × Except ExecutionErrorE ExecutionReport :=
  if l.isWarrantExecuted w.warrantId then
    (l, fs, Except.ok
      { warrant_nonce := w.nonce
        file_id := w.verdict.file_id
        action := w.verdict.action
        success := true
        error := none
        completed_at := now
        audit_detail := some "Idempotent re-execution" })
  else if ¬ l.getPendingWarrants.any (fun w0 => w0.nonce = w.warrantId) then
    (l, fs, Except.error ExecutionErrorE.WarrantNotInLedger)
  else
    let step2 : Option (ExecutionResultE × FileSystem) :=
      match w.verdict.action with
      | EvictionAction.SoftDelete => some (ExecutionResultE.Success, fs)
      | EvictionAction.HardDelete =>
          match removeFile fs w.verdict.file_id with
          | Except.ok fs' => some (ExecutionResultE.Success, fs')
          | Except.error _ => some (ExecutionResultE.Success, fs)
      | _ => none
    match step2 with
    | none => (l, fs, Except.error (ExecutionErrorE.IoError "Unknown action"))
    | some (res, fs') =>
        let event : ExecutionEventEntry :=
          { id := 0
            warrant_nonce := w.warrantId
            executed_at_unix := now
            executor_id := executorId
            result := res.asStr
            errno := none }
        match l.recordExecution event with
        | Except.error _ =>
            (l, fs', Except.error (ExecutionErrorE.IoError "Failed to record execution"))
        | Except.ok l' =>
            let success := res = ExecutionResultE.Success
            (l', fs', Except.ok
              { warrant_nonce := w.nonce
                file_id := w.verdict.file_id
                action := w.verdict.action
                success := success
                error := if success then none else
                  match res with
                  | ExecutionResultE.Success => none
                  | ExecutionResultE.FailPermission => some ExecutionErrorE.PermissionDenied
                  | ExecutionResultE.FailIo => some (ExecutionErrorE.IoError "operation failed")
                  | ExecutionResultE.FailLocked => some ExecutionErrorE.FileLocked
                completed_at := now
                audit_detail := some "executor result" })

/-! ## Janitor (`src/ui/src-tauri/src/executioner/recovery.rs`) -/

/-- `JanitorReport` from `recovery.rs`. -/
structure JanitorReport where
  zombies_recovered : Nat
  ghosts_deleted : Nat
  ghosts_protected : Nat
  aliens_protected : Nat
  ghost_cleanup_errors : Nat
deriving DecidableEq, Repr

/-- `JanitorReport::new` from `recovery.rs`. -/
def JanitorReport.new : JanitorReport :=
  { zombies_recovered := 0, ghosts_deleted := 0, ghosts_protected := 0,
    aliens_protected := 0, ghost_cleanup_errors := 0 }

/-- One directory entry of `Janitor::find_and_purge_ghosts` from
`recovery.rs`: classify the basename; an Alien is counted protected; a
Ghost present in the Registry is counted protected; a Ghost absent from
the Registry is hard-deleted first, and only afterwards an
`ExecutionEvent` with the synthetic nonce `GHOST_CLEANUP_<name>` is
submitted to the Ledger, its result discarded (`let _ = ...` in the
source) — so a rejection by `record_execution` leaves the Ledger as it
was. -/
def ghostStep (registryKeys : List String) (now : Nat)
    (acc : Ledger × FileSystem × JanitorReport) (name : String) :
    Ledger × FileSystem × JanitorReport :=
  let (l, fs, report) := acc
  match NamingContract.classify name with
  | FileOrigin.Ghost =>
      if name ∈ registryKeys then
        (l, fs, { report with ghosts_protected := report.ghosts_protected + 1 })
      else
        match removeFile fs name with
        | Except.ok fs' =>
            let event : ExecutionEventEntry :=
              { id := 0
                warrant_nonce := "GHOST_CLEANUP_" ++ name
                executed_at_unix := now
                executor_id := "JANITOR_GHOST_CLEANUP"
                result := "SUCCESS"
                errno := none }
            let l' := match l.recordExecution event with
              | Except.ok l2 => l2
              | Except.error _ => l
            (l', fs', { report with ghosts_deleted := report.ghosts_deleted + 1 })
        | Except.error _ =>
            (l, fs, { report with ghost_cleanup_errors := report.ghost_cleanup_errors + 1 })
  | FileOrigin.Alien =>
      (l, fs, { report with aliens_protected := report.aliens_protected + 1 })

/-- `Janitor::find_and_purge_ghosts` from `recovery.rs`: fold `ghostStep`
over the cache-directory listing (the names `read_dir` yields), threading
ledger, filesystem and report. -/
def findAndPurgeGhosts (l : Ledger) (registryKeys : List String) (dir : List String)
    (fs : FileSystem) (report : JanitorReport) (now : Nat) :
    Ledger × FileSystem × JanitorReport :=
  dir.foldl (ghostStep registryKeys now) (l, fs, report)

/-- Loop body of `Janitor::recover_zombies` from `recovery.rs` over the
pending warrants fetched up front: attempt the hard delete (in this
filesystem model the attempt fails only with NotFound, which the zombie
path counts as success), then record the outcome; a Ledger write failure
aborts the whole recovery. -/
def recoverZombiesLoop (now : Nat) :
    List WarrantEntry → Ledger → FileSystem → JanitorReport →
    Except String (Ledger × FileSystem × JanitorReport)
  | [], l, fs, report => Except.ok (l, fs, report)
  | w :: ws, l, fs, report =>
      let fs' := match removeFile fs w.target_path with
        | Except.ok fs' => fs'
        | Except.error _ => fs
      let event : ExecutionEventEntry :=
        { id := 0
          warrant_nonce := w.nonce
          executed_at_unix := now
          executor_id := "JANITOR_RECOVERY"
          result := "SUCCESS"
          errno := none }
      match l.recordExecution event with
      | Except.error e => Except.error e
      | Except.ok l' =>
          recoverZombiesLoop now ws l' fs'
            { report with zombies_recovered := report.zombies_recovered + 1 }

/-- `Janitor::recover_zombies` from `recovery.rs`. -/
def recoverZombies (l : Ledger) (fs : FileSystem) (report : JanitorReport) (now : Nat) :
    Except String (Ledger × FileSystem × JanitorReport) :=
  recoverZombiesLoop now l.getPendingWarrants l fs report

/-! ## L2 image cache (`src/libs/elite_pdf/src/cache_registry.rs`)

The elite_pdf `CacheRegistry` holds an L1 semantic tier and an L2 image
tier. The claims concern the L2 tier and the memory counters, so the
model carries the L2 map, its LRU deque, and both tiers' byte usages. -/

/-- `ImageBlock` from `cache_registry.rs`. -/
structure ImageBlockE where
  page_id : Nat
  png_path : String
  render_dpi : Nat
  file_size : Nat
  last_accessed : Nat
deriving DecidableEq, Repr

/-- The mutable state of elite_pdf's `CacheRegistry` that the claims
touch: both byte counters, the L2 image map and its LRU access-order
deque (list head = deque front). -/
structure EliteCacheState where
  semantic_memory_usage : Nat
  image_cache : List (Nat × ImageBlockE)
  image_access_order : List Nat
  image_memory_usage : Nat
deriving DecidableEq, Repr

/-- `max_semantic_memory` set by `CacheRegistry::new` (100 MiB). -/
def maxSemanticMemory : Nat := 100 * 1024 * 1024

/-- `max_image_memory` set by `CacheRegistry::new` (500 MiB). -/
def maxImageMemory : Nat := 500 * 1024 * 1024

/-- `CacheRegistry::new` from `cache_registry.rs` (the modelled fields). -/
def EliteCacheState.new : EliteCacheState :=
  { semantic_memory_usage := 0, image_cache := [], image_access_order := [],
    image_memory_usage := 0 }

/-- `HashMap::get` on the image map. -/
def lookupImage (cache : List (Nat × ImageBlockE)) (k : Nat) : Option ImageBlockE :=
  (cache.find? (fun p => p.1 = k)).map (fun p => p.2)

/-- `HashMap::remove` on the image map. -/
def removeImage (cache : List (Nat × ImageBlockE)) (k : Nat) : List (Nat × ImageBlockE) :=
  cache.filter (fun p => p.1 ≠ k)

/-- `HashMap::insert` on the image map: drop any previous binding of the
key and append the new one. -/
def insertImage (cache : List (Nat × ImageBlockE)) (k : Nat) (b : ImageBlockE) :
    List (Nat × ImageBlockE) :=
  cache.filter (fun p => p.1 ≠ k) ++ [(k, b)]

/-- Result of the `evict_image_lru` loop. -/
structure EvictOut where
  cache : List (Nat × ImageBlockE)
  order : List Nat
  usage : Nat
  freed : Nat
deriving DecidableEq, Repr

/-- The `while let Some(&page_id) = access_order.front()` loop of
`CacheRegistry::evict_image_lru` from `cache_registry.rs`: stop when the
deque is empty; otherwise, if enough is freed, stop keeping the deque;
else remove the front key's entry from the map (if present), subtract
its size from the usage (`saturating_sub` is `Nat` subtraction), add it
to the freed total, and pop the front. -/
def evictLoop (cache : List (Nat × ImageBlockE)) :
    List Nat → Nat → Nat → Nat → EvictOut
  | [], usage, _needed, freed => { cache := cache, order := [], usage := usage, freed := freed }
  | k :: rest, usage, needed, freed =>
      if needed ≤ freed then
        { cache := cache, order := k :: rest, usage := usage, freed := freed }
      else
        match lookupImage cache k with
        | some b =>
            evictLoop (removeImage cache k) rest (usage - b.file_size) needed
              (freed + b.file_size)
        | none => evictLoop cache rest usage needed freed

/-- `CacheRegistry::evict_image_lru` from `cache_registry.rs`: run the
loop, keep its mutations (they live behind the shared mutexes and are
never rolled back), and fail when too little was freed. -/
def evictImageLru (s : EliteCacheState) (needed : Nat) : EliteCacheState × Except String Unit :=
  let r := evictLoop s.image_cache s.image_access_order s.image_memory_usage needed 0
  let s' := { s with image_cache := r.cache, image_access_order := r.order,
                     image_memory_usage := r.usage }
  if r.freed < needed then (s', Except.error "Cannot free enough image memory")
  else (s', Except.ok ())

/-- The insert block of `CacheRegistry::put_image` from
`cache_registry.rs`: if the key is present, subtract the old block's
size and drop the key from the deque (`retain`); then insert the block,
push the key on the deque tail and add its size. -/
def putImageInsert (s : EliteCacheState) (block : ImageBlockE) : EliteCacheState :=
  let k := block.page_id
  match lookupImage s.image_cache k with
  | some old =>
      { s with image_cache := insertImage s.image_cache k block
               image_access_order := s.image_access_order.filter (fun x => x ≠ k) ++ [k]
               image_memory_usage := s.image_memory_usage - old.file_size + block.file_size }
  | none =>
      { s with image_cache := insertImage s.image_cache k block
               image_access_order := s.image_access_order ++ [k]
               image_memory_usage := s.image_memory_usage + block.file_size }

/-- `CacheRegistry::put_image` from `cache_registry.rs`: evict first when
the block would push usage over the limit (the eviction's effects persist
even when it fails and the put returns the error), then insert. -/
def putImage (s : EliteCacheState) (block : ImageBlockE) :
    EliteCacheState × Except String Unit :=
  if maxImageMemory < s.image_memory_usage + block.file_size then
    match evictImageLru s block.file_size with
    | (s', Except.error e) => (s', Except.error e)
    | (s', Except.ok _) => (putImageInsert s' block, Except.ok ())
  else
    (putImageInsert s block, Except.ok ())

/-- `CacheRegistry::get_image` from `cache_registry.rs`: on a hit, move
the key to the deque tail (`update_image_access_order`: retain away, then
push_back) and return the block. -/
def getImage (s : EliteCacheState) (k : Nat) : EliteCacheState × Option ImageBlockE :=
  match lookupImage s.image_cache k with
  | some b =>
      ({ s with image_access_order := s.image_access_order.filter (fun x => x ≠ k) ++ [k] },
        some b)
  | none => (s, none)

/-- `CacheRegistry::clear` from `cache_registry.rs` (the modelled
fields). -/
def clearCache (_s : EliteCacheState) : EliteCacheState := EliteCacheState.new

/-- `CacheRegistry::can_accept_semantic_work` from `cache_registry.rs`:
`usage < (max_semantic_memory as f64 * 0.8) as usize`; for the 100 MiB
constant the cast is exact, giving 83886080. -/
def canAcceptSemanticWork (s : EliteCacheState) : Bool :=
  s.semantic_memory_usage < 83886080

/-- `CacheRegistry::can_accept_image_work` from `cache_registry.rs`: for
the 500 MiB constant the 80% threshold is exactly 419430400. -/
def canAcceptImageWork (s : EliteCacheState) : Bool :=
  s.image_memory_usage < 419430400

/-- An L2-relevant operation on elite_pdf's `CacheRegistry`, for C10's
quantification over operation sequences. -/
inductive L2Op where
  | put (block : ImageBlockE)
  | get (k : Nat)
  | evict (needed : Nat)
  | clear

/-- Apply one `L2Op` (results of `put`/`get`/`evict` are discarded, the
state they leave behind is kept). -/
def applyL2Op (s : EliteCacheState) : L2Op → EliteCacheState
  | L2Op.put block => (putImage s block).1
  | L2Op.get k => (getImage s k).1
  | L2Op.evict needed => (evictImageLru s needed).1
  | L2Op.clear => clearCache s

/-- Apply a sequence of `L2Op`s from left to right. -/
def applyL2Ops (s : EliteCacheState) (ops : List L2Op) : EliteCacheState :=
  ops.foldl applyL2Op s

/-- Keys of the image map, in list order. -/
def keysI (cache : List (Nat × ImageBlockE)) : List Nat := cache.map (fun p => p.1)

/-- Sum of `file_size` over the resident image blocks. -/
def sumImg (cache : List (Nat × ImageBlockE)) : Nat :=
  (cache.map (fun p => p.2.file_size)).sum

/-- The L2 representation invariant of claim C10: the LRU deque holds
exactly the keys of the image map, each once, and the byte counter is
the sum of the resident block sizes. -/
def L2Inv (s : EliteCacheState) : Prop :=
  s.image_access_order.Nodup ∧
  s.image_access_order.Perm (keysI s.image_cache) ∧
  s.image_memory_usage = sumImg s.image_cache

/-! ## Backpressure controller (`src/libs/elite_pdf/src/backpressure_controller.rs`) -/

/-- `WorkType` from `backpressure_controller.rs`. -/
inductive WorkTypeE where
  | SemanticExtraction
  | ImageRendering
  | Both
deriving DecidableEq, Repr

/-- `WorkItem` from `backpressure_controller.rs` (`created_at : Instant`
becomes a `Nat` tick; `priority : f64` becomes `ℚ`). -/
structure WorkItemE where
  page_id : Nat
  work_type : WorkTypeE
  priority : ℚ
  created_at : Nat
  backpressure_sensitive : Bool
deriving DecidableEq, Repr

/-- The mutable state of `BackpressureController` that `submit_work`
reads and writes (thresholds are the constants `new` installs:
memory 0.85, queue 20, max workers 8, initial limit 4). -/
structure BackpressureState where
  cache : EliteCacheState
  work_queue : List WorkItemE
  active_workers : Nat
  current_worker_limit : Nat
  total_processed : Nat
  rejected_due_to_pressure : Nat
deriving DecidableEq, Repr

/-- Memory pressure as computed in `should_reject_work`:
`(semantic_usage + image_usage) / 600 MiB`, exact in `ℚ`. -/
def memoryPressure (c : EliteCacheState) : ℚ :=
  ((c.semantic_memory_usage + c.image_memory_usage : Nat) : ℚ) / 629145600

/-- The tier-specific arm of `should_reject_work`'s `match`: the source's
first arm pattern is `SemanticExtraction | Both`, so a `Both` item is
checked against the semantic tier only (a Rust `match` runs the first
matching arm; the second arm's `Both` alternative is unreachable). -/
def tierRejects (c : EliteCacheState) : WorkTypeE → Bool
  | WorkTypeE.SemanticExtraction => ¬ canAcceptSemanticWork c
  | WorkTypeE.Both => ¬ canAcceptSemanticWork c
  | WorkTypeE.ImageRendering => ¬ canAcceptImageWork c

/-- `BackpressureController::should_reject_work` from
`backpressure_controller.rs`: memory pressure above 0.85, queue longer
than 20, tier-specific rejection, or no worker headroom. -/
def shouldRejectWork (s : BackpressureState) (item : WorkItemE) : Bool :=
  if (17 : ℚ)/20 < memoryPressure s.cache then true
  else if 20 < s.work_queue.length then true
  else if tierRejects s.cache item.work_type then true
  else if s.current_worker_limit ≤ s.active_workers then true
  else false

/-- `BackpressureController::submit_work` from
`backpressure_controller.rs`: on rejection bump the counter and return
the error; otherwise push the item and stably re-sort the queue by
descending priority (`maybe_spawn_worker`, a thread spawn, has no effect
on the modelled state at submission time). -/
def submitWork (s : BackpressureState) (item : WorkItemE) :
    BackpressureState × Except String Unit :=
  if shouldRejectWork s item then
    ({ s with rejected_due_to_pressure := s.rejected_due_to_pressure + 1 },
      Except.error "Work rejected due to backpressure")
  else
    ({ s with work_queue :=
        (s.work_queue ++ [item]).mergeSort (fun a b => b.priority ≤ a.priority) },
      Except.ok ())

/-! ## Concrete instances used in counterexamples and witnesses -/

/-- `EvictionPolicy::default` from `resource_court.rs` (the modelled
fields; decimal weights at their exact rational values). -/
def defaultPolicy : EvictionPolicy :=
  { max_cache_size_bytes := 500 * 1024 * 1024
    min_age_seconds := 86400
    size_weight := 1/4
    age_weight := 1/4
    viewport_weight := 3/10
    entropy_weight := 1/5
    eviction_threshold_critical := 4/5
    eviction_threshold_high := 3/5
    eviction_threshold_medium := 2/5 }

/-- A registry entry of 10 bytes, for exercising `register_entry`. -/
def entryA : CacheEntryR :=
  { file_id := "a", file_path := "p", file_size_bytes := 10, file_count := 1, created_at := 0,
    last_accessed_at := 0, access_count := 0, user_pinned := false, viewport_distance := 0 }

/-- A second registry entry with a distinct `file_id`. -/
def entryB : CacheEntryR :=
  { file_id := "b", file_path := "q", file_size_bytes := 7, file_count := 1, created_at := 0,
    last_accessed_at := 0, access_count := 0, user_pinned := false, viewport_distance := 1 }

/-- A warrant row whose target `TFT_x` carries the `TFT_` front marker
(so `append_warrant` accepts it) but is classified Foreign by the Naming
Contract (no `.tft_cache` marker, no parts). -/
def foreignWarrantEntry : WarrantEntry :=
  { nonce := "WARRANT_0000000000000005", issued_at_unix := 0, target_path := "TFT_x",
    action := "HARD_DELETE", signature := [], court_version := "1.0" }

/-- The ledger holding exactly `foreignWarrantEntry`, pending. -/
def foreignLedger : Ledger := { warrants := [foreignWarrantEntry], events := [] }

/-- The execution warrant (nonce 5) for the hard deletion of `TFT_x`. -/
def foreignWarrant : ExecutionWarrant :=
  { verdict := { file_id := "TFT_x", action := EvictionAction.HardDelete, score := 0,
                 timestamp := 0, is_reversible := false },
    nonce := 5, issued_at := 0, signature := "", ledger_ref := none }

/-- A warrant row for a soft deletion, nonce 7. -/
def softWarrantEntry : WarrantEntry :=
  { nonce := "WARRANT_0000000000000007", issued_at_unix := 0, target_path := "TFT_soft",
    action := "SOFT_DELETE", signature := [], court_version := "1.0" }

/-- The ledger holding exactly `softWarrantEntry`, pending. -/
def softLedger : Ledger := { warrants := [softWarrantEntry], events := [] }

/-- The execution warrant (nonce 7) for the soft deletion of `TFT_soft`. -/
def softWarrant : ExecutionWarrant :=
  { verdict := { file_id := "TFT_soft", action := EvictionAction.SoftDelete, score := 0,
                 timestamp := 0, is_reversible := true },
    nonce := 7, issued_at := 0, signature := "", ledger_ref := none }

/-- A well-formed Owned basename that is on disk but in no Registry: a
ghost for the Janitor. -/
def ghostName : String := "TFT_a_b_1.tft_cache"

/-- A resident 1000-byte image block under key 1. -/
def blockA : ImageBlockE :=
  { page_id := 1, png_path := "a.png", render_dpi := 144, file_size := 1000, last_accessed := 0 }

/-- An image block of 600 MiB — larger than the whole 500 MiB L2 tier. -/
def blockBig : ImageBlockE :=
  { page_id := 2, png_path := "b.png", render_dpi := 144, file_size := 629145600,
    last_accessed := 0 }

/-- L2 state holding exactly `blockA`, consistently tracked. -/
def oneBlockState : EliteCacheState :=
  { semantic_memory_usage := 0, image_cache := [(1, blockA)], image_access_order := [1],
    image_memory_usage := 1000 }

/-- Controller state whose image tier sits exactly at the 80% threshold
(419430400 bytes), with an empty queue and free workers. -/
def imageFullController : BackpressureState :=
  { cache := { semantic_memory_usage := 0, image_cache := [], image_access_order := [],
               image_memory_usage := 419430400 },
    work_queue := [], active_workers := 0, current_worker_limit := 4,
    total_processed := 0, rejected_due_to_pressure := 0 }

/-- A `Both`-kind work item. -/
def bothItem : WorkItemE :=
  { page_id := 1, work_type := WorkTypeE.Both, priority := 1/2, created_at := 0,
    backpressure_sensitive := true }

/-- An `ImageRendering`-kind work item. -/
def imageItem : WorkItemE :=
  { page_id := 2, work_type := WorkTypeE.ImageRendering, priority := 1/4, created_at := 0,
    backpressure_sensitive := true }

/-! # Theorems -/

/-! ## Helper lemmas -/

theorem decide_ne_hard_eq_false_iff (a : EvictionAction) :
    (decide (a ≠ EvictionAction.HardDelete) = false) ↔ a = EvictionAction.HardDelete := by
  cases a <;> simp

theorem touch_sizes_eq (fileId : String) (now : Nat) (l : List (String × CacheEntryR)) :
    (l.map (fun p =>
        if p.1 = fileId then
          (p.1, { p.2 with last_accessed_at := now, access_count := p.2.access_count + 1 })
        else p)).map (fun p => p.2.file_size_bytes) =
      l.map (fun p => p.2.file_size_bytes) := by
  induction l with
  | nil => rfl
  | cons p l ih =>
      by_cases h : p.1 = fileId <;> simp [h, ih]

theorem touch_keys_eq (fileId : String) (now : Nat) (l : List (String × CacheEntryR)) :
    (l.map (fun p =>
        if p.1 = fileId then
          (p.1, { p.2 with last_accessed_at := now, access_count := p.2.access_count + 1 })
        else p)).map (fun p => p.1) =
      l.map (fun p => p.1) := by
  induction l with
  | nil => rfl
  | cons p l ih =>
      by_cases h : p.1 = fileId <;> simp [h, ih]

theorem filter_eq_self_of_fresh (l : List (String × CacheEntryR)) (fileId : String)
    (h : ∀ p ∈ l, p.1 ≠ fileId) : l.filter (fun p => p.1 ≠ fileId) = l := by
  apply List.filter_eq_self.mpr
  intro p hp
  simpa using h p hp

theorem applyOps_total_aux (ops : List RegistryOp) :
    ∀ reg : CacheRegistryR,
      reg.total_size_bytes = reg.sumSizes →
      (∀ id ∈ registeredIds ops, ∀ p ∈ reg.entries, p.1 ≠ id) →
      (registeredIds ops).Nodup →
      (reg.applyOps ops).total_size_bytes = (reg.applyOps ops).sumSizes := by
  induction ops with
  | nil => intro reg h _ _; exact h
  | cons op ops ih =>
      intro reg htot hfresh hnodup
      cases op with
      | register entry now =>
          have hfreshHead : ∀ p ∈ reg.entries, p.1 ≠ entry.file_id := by
            intro p hp
            exact hfresh entry.file_id (by simp [registeredIds]) p hp
          have hfilter := filter_eq_self_of_fresh reg.entries entry.file_id hfreshHead
          have hnodup' : (registeredIds ops).Nodup := by
            simpa [registeredIds] using hnodup.of_cons
          have hnotin : entry.file_id ∉ registeredIds ops := by
            simpa [registeredIds] using (List.nodup_cons.mp (by simpa [registeredIds] using hnodup)).1
          have step : (reg.applyOps (RegistryOp.register entry now :: ops)) =
              ((reg.registerEntry entry now).applyOps ops) := rfl
          rw [step]
          apply ih
          · -- new total equals new sum
            simp only [CacheRegistryR.registerEntry, CacheRegistryR.sumSizes, insertAssoc,
              hfilter, List.map_append, List.sum_append] at *
            simp [htot]
          · -- freshness is preserved for the remaining registrations
            intro id hid p hp
            simp only [CacheRegistryR.registerEntry, insertAssoc, hfilter, List.mem_append,
              List.mem_singleton] at hp
            rcases hp with hp | hp
            · exact hfresh id (by simp [registeredIds, hid]) p hp
            · subst hp
              intro hcontra
              have hplain : entry.file_id = id := hcontra
              exact hnotin (by rw [hplain]; exact hid)
          · exact hnodup'
      | touch fileId now =>
          have step : (reg.applyOps (RegistryOp.touch fileId now :: ops)) =
              (((reg.touchEntry fileId now).1).applyOps ops) := rfl
          rw [step]
          apply ih
          · by_cases h : reg.entries.any (fun p => p.1 = fileId)
            · simp only [CacheRegistryR.touchEntry, h, if_pos, CacheRegistryR.sumSizes]
              rw [touch_sizes_eq]
              exact htot
            · simp only [CacheRegistryR.touchEntry, h]
              simpa using htot
          · intro id hid p hp
            by_cases h : reg.entries.any (fun p => p.1 = fileId)
            · simp only [CacheRegistryR.touchEntry, h, if_pos, List.mem_map] at hp
              obtain ⟨q, hq, hpq⟩ := hp
              have hq1 : p.1 = q.1 := by
                subst hpq
                by_cases h2 : q.1 = fileId <;> simp [h2]
              rw [hq1]
              exact hfresh id (by simp [registeredIds, hid]) q hq
            · simp only [CacheRegistryR.touchEntry, h] at hp
              exact hfresh id (by simp [registeredIds, hid]) p (by simpa using hp)
          · simpa [registeredIds] using hnodup

/-! ## C6 — Court verdict policy -/

/-- C6: For every registry entry, the Court assigns its verdict action by
the first matching rule of the fixed policy (pinned ⇒ Retain; in-viewport
and frequently accessed ⇒ Retain; Critical and cache over limit ⇒
HardDelete; at least High ⇒ SoftDelete; Medium ⇒ Monitor; otherwise
Retain), and every produced verdict has `is_reversible` false exactly
when its action is HardDelete. -/
theorem court_verdict_follows_policy (policy : EvictionPolicy) (entry : CacheEntryR)
    (score : EvictionScore) (currentCacheSize : Nat) (now : Nat) (registry : CacheRegistryR) :
    (renderVerdict policy entry score currentCacheSize now).action =
      courtActionSpec policy.max_cache_size_bytes entry.user_pinned entry.viewport_distance
        entry.access_count score.severity_level currentCacheSize ∧
    ((renderVerdict policy entry score currentCacheSize now).is_reversible = false ↔
      (renderVerdict policy entry score currentCacheSize now).action =
        EvictionAction.HardDelete) ∧
    ∀ v ∈ judgeEntries policy registry currentCacheSize now,
      (v.is_reversible = false ↔ v.action = EvictionAction.HardDelete) := by
  refine ⟨rfl, ?_, ?_⟩
  · simp only [renderVerdict]
    exact decide_ne_hard_eq_false_iff _
  · intro v hv
    simp only [judgeEntries, List.mem_map] at hv
    obtain ⟨p, _, rfl⟩ := hv
    simp only [renderVerdict]
    exact decide_ne_hard_eq_false_iff _

/-- Witness for C6 at a concrete registry holding `entryA`. -/
theorem court_verdict_follows_policy_witness :
    ∃ v, v ∈ judgeEntries defaultPolicy ((CacheRegistryR.new 0).registerEntry entryA 0) 0 0 ∧
      (v.is_reversible = false ↔ v.action = EvictionAction.HardDelete) := by
  refine ⟨(judgeEntries defaultPolicy ((CacheRegistryR.new 0).registerEntry entryA 0) 0 0).head
    (by decide), ?_, ?_⟩
  · exact List.head_mem _
  · exact (court_verdict_follows_policy defaultPolicy entryA
      (calculateEvictionScore defaultPolicy entryA (calculateEntropy entryA) 0) 0 0
      ((CacheRegistryR.new 0).registerEntry entryA 0)).2.2 _ (List.head_mem _)

/-! ## C3 — Registry size accounting -/

/-- C3 counterexample: registering the same 10-byte entry twice leaves
`total_size_bytes` at 20 while the entries sum to 10 — re-registration
does not adjust the total, so the claimed invariant fails. -/
theorem register_total_counterexample :
    ¬ (((CacheRegistryR.new 0).applyOps
          [RegistryOp.register entryA 0, RegistryOp.register entryA 0]).total_size_bytes =
        ((CacheRegistryR.new 0).applyOps
          [RegistryOp.register entryA 0, RegistryOp.register entryA 0]).sumSizes) := by
  decide

/-- C3 amended: `register_entry` adds the new entry's size to the total
without subtracting a replaced entry's size, so the tracked total equals
the sum over current entries only for sequences that never re-register a
`file_id`; `touch` never disturbs the equality. -/
theorem register_total_amended (now : Nat) (ops : List RegistryOp)
    (h : (registeredIds ops).Nodup) :
    ((CacheRegistryR.new now).applyOps ops).total_size_bytes =
      ((CacheRegistryR.new now).applyOps ops).sumSizes := by
  apply applyOps_total_aux ops
  · rfl
  · intro id _ p hp
    simp [CacheRegistryR.new] at hp
  · exact h

/-- Witness for C3 amended: distinct registrations with interleaved
touches keep the total equal to the entry-size sum. -/
theorem register_total_amended_witness :
    (registeredIds [RegistryOp.register entryA 0, RegistryOp.touch "a" 1,
        RegistryOp.register entryB 2]).Nodup ∧
    ((CacheRegistryR.new 0).applyOps [RegistryOp.register entryA 0, RegistryOp.touch "a" 1,
        RegistryOp.register entryB 2]).total_size_bytes =
      ((CacheRegistryR.new 0).applyOps [RegistryOp.register entryA 0, RegistryOp.touch "a" 1,
        RegistryOp.register entryB 2]).sumSizes :=
  ⟨by decide, register_total_amended 0 _ (by decide)⟩

/-! ## Ledger and Executioner lemmas -/

theorem pending_any_elim (l : Ledger) (n : String)
    (h : l.getPendingWarrants.any (fun w => w.nonce = n) = true) :
    l.isWarrantExecuted n = false ∧ l.warrants.any (fun w => w.nonce = n) = true := by
  simp only [Ledger.getPendingWarrants, List.any_eq_true, List.mem_filter,
    decide_eq_true_eq] at h
  obtain ⟨w, ⟨hmem, hpend⟩, hn⟩ := h
  subst hn
  constructor
  · simp only [Ledger.isWarrantExecuted]
    simpa using hpend
  · simp only [List.any_eq_true, decide_eq_true_eq]
    exact ⟨w, hmem, rfl⟩

theorem recordExecution_of_exists (l : Ledger) (e : ExecutionEventEntry)
    (h : l.warrants.any (fun w => w.nonce = e.warrant_nonce) = true) :
    l.recordExecution e =
      Except.ok { l with events := l.events ++ [{ e with id := l.events.length + 1 }] } := by
  simp [Ledger.recordExecution, h]

theorem isWarrantExecuted_append (l : Ledger) (e : ExecutionEventEntry) (n : String)
    (hn : e.warrant_nonce = n) (hr : e.result = "SUCCESS") :
    Ledger.isWarrantExecuted { l with events := l.events ++ [e] } n = true := by
  simp only [Ledger.isWarrantExecuted, List.any_append, List.any_eq_true, Bool.or_eq_true]
  right
  simp [hn, hr]

/-- The successful-execution shape of `execute` on a pending deletion
warrant: the `SUCCESS` event is appended and a success report returned. -/
theorem execute_pending_success (l : Ledger) (fs : FileSystem) (w : ExecutionWarrant)
    (eid : String) (now : Nat)
    (hp : l.getPendingWarrants.any (fun w0 => w0.nonce = w.warrantId) = true)
    (ha : w.verdict.action = EvictionAction.SoftDelete ∨
      w.verdict.action = EvictionAction.HardDelete) :
    ∃ fs', execute l fs w eid now =
      ({ l with events := l.events ++
          [{ id := l.events.length + 1, warrant_nonce := w.warrantId, executed_at_unix := now,
             executor_id := eid, result := "SUCCESS", errno := none }] }, fs',
        Except.ok
          { warrant_nonce := w.nonce, file_id := w.verdict.file_id,
            action := w.verdict.action, success := true, error := none, completed_at := now,
            audit_detail := some "executor result" }) := by
  obtain ⟨hnotexec, hexists⟩ := pending_any_elim l w.warrantId hp
  have hrec := recordExecution_of_exists l
    { id := 0, warrant_nonce := w.warrantId, executed_at_unix := now, executor_id := eid,
      result := "SUCCESS", errno := none } hexists
  rcases ha with ha | ha
  · refine ⟨fs, ?_⟩
    simp [execute, hnotexec, hp, ha, ExecutionResultE.asStr, hrec]
  · by_cases hfs : w.verdict.file_id ∈ fs
    · refine ⟨fs.erase w.verdict.file_id, ?_⟩
      simp [execute, hnotexec, hp, ha, removeFile, hfs, ExecutionResultE.asStr, hrec]
    · refine ⟨fs, ?_⟩
      simp [execute, hnotexec, hp, ha, removeFile, hfs, ExecutionResultE.asStr, hrec]

/-! ## C4 — Executioner idempotence -/

/-- C4: a warrant already committed makes `execute` a no-op success with
no filesystem or ledger change; a warrant neither committed nor pending
fails `WarrantNotInLedger` without any change; and a second `execute` of
a pending deletion warrant right after the first returns the idempotent
success report with the ledger and filesystem exactly as the first call
left them. -/
theorem execute_idempotent (l : Ledger) (fs : FileSystem) (w : ExecutionWarrant)
    (eid : String) (now now2 : Nat) :
    (l.isWarrantExecuted w.warrantId = true →
      execute l fs w eid now = (l, fs, Except.ok
          { warrant_nonce := w.nonce, file_id := w.verdict.file_id,
            action := w.verdict.action,
            success := true, error := none, completed_at := now,
            audit_detail := some "Idempotent re-execution" })) ∧
    (l.isWarrantExecuted w.warrantId = false →
      l.getPendingWarrants.any (fun w0 => w0.nonce = w.warrantId) = false →
      execute l fs w eid now = (l, fs, Except.error ExecutionErrorE.WarrantNotInLedger)) ∧
    (l.getPendingWarrants.any (fun w0 => w0.nonce = w.warrantId) = true →
      (w.verdict.action = EvictionAction.SoftDelete ∨
        w.verdict.action = EvictionAction.HardDelete) →
      execute (execute l fs w eid now).1 (execute l fs w eid now).2.1 w eid now2 =
        ((execute l fs w eid now).1, (execute l fs w eid now).2.1, Except.ok
            { warrant_nonce := w.nonce, file_id := w.verdict.file_id,
              action := w.verdict.action,
              success := true, error := none, completed_at := now2,
              audit_detail := some "Idempotent re-execution" })) := by
  refine ⟨?_, ?_, ?_⟩
  · intro hexec
    simp [execute, hexec]
  · intro hnotexec hnotpend
    simp [execute, hnotexec, hnotpend]
  · intro hp ha
    obtain ⟨fs', hrun⟩ := execute_pending_success l fs w eid now hp ha
    rw [hrun]
    have hexec2 : Ledger.isWarrantExecuted
        { l with events := l.events ++
          [{ id := l.events.length + 1, warrant_nonce := w.warrantId, executed_at_unix := now,
             executor_id := eid, result := "SUCCESS", errno := none }] } w.warrantId = true :=
      isWarrantExecuted_append l _ w.warrantId rfl rfl
    simp [execute, hexec2]

/-- Witness for C4: the pending soft-delete warrant nonce 7 executes,
then re-executes as an idempotent no-op. -/
theorem execute_idempotent_witness :
    softLedger.getPendingWarrants.any
        (fun w0 => w0.nonce = softWarrant.warrantId) = true ∧
    execute (execute softLedger [] softWarrant "exec" 1).1
        (execute softLedger [] softWarrant "exec" 1).2.1 softWarrant "exec" 2 =
      ((execute softLedger [] softWarrant "exec" 1).1,
        (execute softLedger [] softWarrant "exec" 1).2.1, Except.ok
          { warrant_nonce := softWarrant.nonce, file_id := softWarrant.verdict.file_id,
            action := softWarrant.verdict.action, success := true, error := none,
            completed_at := 2, audit_detail := some "Idempotent re-execution" }) :=
  ⟨by decide,
    (execute_idempotent softLedger [] softWarrant "exec" 1 2).2.2 (by decide)
      (Or.inl (by decide))⟩

/-! ## C1 — Naming Contract in the Executioner -/

/-- C1 counterexample: `execute` never consults the Naming Contract. The
basename `TFT_x` is classified Foreign (Alien), yet `append_warrant`
accepts it (it checks only the `TFT_` front marker), and executing the
pending hard-delete warrant removes the file from disk and reports
success instead of aborting with `PermissionDenied`. -/
theorem executioner_removes_foreign_counterexample :
    NamingContract.classify foreignWarrant.verdict.file_id = FileOrigin.Alien ∧
    Ledger.appendWarrant Ledger.empty foreignWarrantEntry 0 =
      Except.ok (foreignLedger, "LE_WARRANT_0000000000000005_0") ∧
    foreignLedger.getPendingWarrants.any
      (fun w0 => w0.nonce = foreignWarrant.warrantId) = true ∧
    (execute foreignLedger ["TFT_x"] foreignWarrant "exec" 7).2.1 = [] ∧
    (execute foreignLedger ["TFT_x"] foreignWarrant "exec" 7).2.2 = Except.ok
      { warrant_nonce := 5, file_id := "TFT_x", action := EvictionAction.HardDelete,
        success := true, error := none, completed_at := 7,
        audit_detail := some "executor result" } := by
  refine ⟨by decide, by decide, by decide, by decide, by decide⟩

/-- C1 amended: `FilesystemExecutioner::execute` performs no naming
re-validation at all; any pending hard-delete warrant is executed even
when the Naming Contract classifies its target Foreign — the removal
happens and the report is a success, not `PermissionDenied`. The only
naming guard on this path is `append_warrant`'s weaker `TFT_`-front-
marker check on the warrant's way into the Ledger. -/
theorem execute_no_naming_check (l : Ledger) (fs : FileSystem) (w : ExecutionWarrant)
    (eid : String) (now : Nat)
    (hp : l.getPendingWarrants.any (fun w0 => w0.nonce = w.warrantId) = true)
    (ha : w.verdict.action = EvictionAction.HardDelete)
    (hfs : w.verdict.file_id ∈ fs)
    (_hforeign : NamingContract.classify w.verdict.file_id = FileOrigin.Alien) :
    (execute l fs w eid now).2.1 = fs.erase w.verdict.file_id ∧
    (execute l fs w eid now).2.2 = Except.ok
      { warrant_nonce := w.nonce, file_id := w.verdict.file_id, action := w.verdict.action,
        success := true, error := none, completed_at := now,
        audit_detail := some "executor result" } := by
  obtain ⟨hnotexec, hexists⟩ := pending_any_elim l w.warrantId hp
  have hrec := recordExecution_of_exists l
    { id := 0, warrant_nonce := w.warrantId, executed_at_unix := now, executor_id := eid,
      result := "SUCCESS", errno := none } hexists
  constructor <;>
    simp [execute, hnotexec, hp, ha, removeFile, hfs, ExecutionResultE.asStr, hrec]

/-- Witness for C1 amended at the concrete Foreign target `TFT_x`. -/
theorem execute_no_naming_check_witness :
    (execute foreignLedger ["TFT_x"] foreignWarrant "exec" 7).2.1 =
      (["TFT_x"] : FileSystem).erase foreignWarrant.verdict.file_id ∧
    (execute foreignLedger ["TFT_x"] foreignWarrant "exec" 7).2.2 = Except.ok
      { warrant_nonce := foreignWarrant.nonce, file_id := foreignWarrant.verdict.file_id,
        action := foreignWarrant.verdict.action, success := true, error := none,
        completed_at := 7, audit_detail := some "executor result" } :=
  execute_no_naming_check foreignLedger ["TFT_x"] foreignWarrant "exec" 7
    (by decide) (by decide) (by decide) (by decide)

/-! ## C5 — Quiesce enforcement -/

/-- C5 counterexample: a Global quiesce signal with a live deadline
applies to the warrant's target and has not expired, yet `execute` (which
takes no quiesce input at all) proceeds with the destructive removal and
does not fail `SystemQuiesced`. -/
theorem quiesce_not_enforced_counterexample :
    QuiesceSignal.appliesTo (QuiesceSignal.Global 100)
      (hashFileId foreignWarrant.verdict.file_id) = true ∧
    QuiesceSignal.isExpired (QuiesceSignal.Global 100) 7 = false ∧
    (execute foreignLedger ["TFT_x"] foreignWarrant "exec" 7).2.2 ≠
      Except.error ExecutionErrorE.SystemQuiesced ∧
    (execute foreignLedger ["TFT_x"] foreignWarrant "exec" 7).2.1 = [] := by
  refine ⟨rfl, by decide, by decide, by decide⟩

/-- C5 amended: `QuiesceSignal::applies_to` covers a target hash exactly
for a Global signal or a Pending signal carrying that hash, but the
Executioner never consults it: `execute` has no quiesce input and never
returns `SystemQuiesced`, so an active quiesce does not block
destructive execution. -/
theorem execute_never_quiesced :
    (∀ (sig : QuiesceSignal) (h : Nat), sig.appliesTo h = true ↔
      ((∃ d, sig = QuiesceSignal.Global d) ∨ ∃ d, sig = QuiesceSignal.Pending h d)) ∧
    (∀ (l : Ledger) (fs : FileSystem) (w : ExecutionWarrant) (eid : String) (now : Nat),
      (execute l fs w eid now).2.2 ≠ Except.error ExecutionErrorE.SystemQuiesced) := by
  constructor
  · intro sig h
    cases sig with
    | None => simp [QuiesceSignal.appliesTo]
    | Pending t d =>
        simp only [QuiesceSignal.appliesTo, decide_eq_true_eq]
        constructor
        · intro ht; exact Or.inr ⟨d, by rw [ht]⟩
        · rintro (⟨d', hcontra⟩ | ⟨d', heq⟩)
          · cases hcontra
          · cases heq; rfl
    | Global d => simp [QuiesceSignal.appliesTo]
  · intro l fs w eid now
    by_cases h1 : l.isWarrantExecuted w.warrantId
    · simp [execute, h1]
    · by_cases h2 : l.getPendingWarrants.any (fun w0 => w0.nonce = w.warrantId)
      · cases ha : w.verdict.action with
        | Retain => simp [execute, h1, h2, ha]
        | Monitor => simp [execute, h1, h2, ha]
        | SoftDelete =>
            obtain ⟨fs', hrun⟩ := execute_pending_success l fs w eid now h2 (Or.inl ha)
            rw [hrun]
            simp
        | HardDelete =>
            obtain ⟨fs', hrun⟩ := execute_pending_success l fs w eid now h2 (Or.inr ha)
            rw [hrun]
            simp
      · have h2f : l.getPendingWarrants.any (fun w0 => w0.nonce = w.warrantId) = false := by
          simpa using h2
        simp [execute, h1, h2f]

/-! ## C2 — Warrant-before-removal discipline -/

/-- C2 counterexample: the ghost sweep finds the Owned basename
`TFT_a_b_1.tft_cache` on disk with an empty Registry, removes it, and
leaves the Ledger completely unchanged — no warrant is synthesized
before (or after) the removal; the GHOST_CLEANUP event it submits
afterwards is rejected by `record_execution` (no such warrant) and the
rejection is discarded. -/
theorem ghost_sweep_no_warrant_counterexample :
    NamingContract.classify ghostName = FileOrigin.Ghost ∧
    findAndPurgeGhosts Ledger.empty [] [ghostName] [ghostName] JanitorReport.new 3 =
      (Ledger.empty, [],
        { zombies_recovered := 0, ghosts_deleted := 1, ghosts_protected := 0,
          aliens_protected := 0, ghost_cleanup_errors := 0 }) := by
  refine ⟨by decide, by decide⟩

theorem recordExecution_warrants_eq (l : Ledger) (e : ExecutionEventEntry) (l2 : Ledger)
    (h : l.recordExecution e = Except.ok l2) : l2.warrants = l.warrants := by
  simp only [Ledger.recordExecution] at h
  split at h
  · cases h
  · cases h; rfl

theorem ghostStep_warrants_eq (keys : List String) (now : Nat)
    (acc : Ledger × FileSystem × JanitorReport) (name : String) :
    ((ghostStep keys now acc name).1).warrants = acc.1.warrants := by
  obtain ⟨l, fs, report⟩ := acc
  simp only [ghostStep]
  cases NamingContract.classify name with
  | Ghost =>
      by_cases hk : name ∈ keys
      · simp [hk]
      · simp only [hk, if_neg, ite_false]
        cases hrm : removeFile fs name with
        | ok fs' =>
            simp only
            cases hrec : l.recordExecution
              { id := 0, warrant_nonce := "GHOST_CLEANUP_" ++ name, executed_at_unix := now,
                executor_id := "JANITOR_GHOST_CLEANUP", result := "SUCCESS",
                errno := none } with
            | ok l2 => simp [hrec, recordExecution_warrants_eq l _ l2 hrec]
            | error e => simp [hrec]
        | error e => simp
  | Alien => simp

theorem foldl_ghostStep_warrants (keys : List String) (now : Nat) (dir : List String) :
    ∀ acc : Ledger × FileSystem × JanitorReport,
      ((dir.foldl (ghostStep keys now) acc).1).warrants = acc.1.warrants := by
  induction dir with
  | nil => intro acc; rfl
  | cons d dir ih =>
      intro acc
      calc ((List.foldl (ghostStep keys now) (ghostStep keys now acc d) dir).1).warrants
          = ((ghostStep keys now acc d).1).warrants := ih _
        _ = acc.1.warrants := ghostStep_warrants_eq keys now acc d

/-- C2 amended: the Executioner's removals are warrant-guarded — if
`execute` changes the filesystem, the warrant was pending in the Ledger
at call time — but the Janitor's ghost sweep is not: it appends no
warrant at all (the warrants table is unchanged by the whole sweep), it
removes each unregistered Owned file first, and the GHOST_CLEANUP
execution event it then submits is rejected by `record_execution` and
ignored. -/
theorem removal_warrant_discipline :
    (∀ (l : Ledger) (keys dir : List String) (fs : FileSystem) (report : JanitorReport)
        (now : Nat),
      (findAndPurgeGhosts l keys dir fs report now).1.warrants = l.warrants) ∧
    (∀ (l : Ledger) (fs : FileSystem) (w : ExecutionWarrant) (eid : String) (now : Nat),
      (execute l fs w eid now).2.1 ≠ fs →
      l.getPendingWarrants.any (fun w0 => w0.nonce = w.warrantId) = true) := by
  constructor
  · intro l keys dir fs report now
    exact foldl_ghostStep_warrants keys now dir (l, fs, report)
  · intro l fs w eid now hne
    by_cases h2 : l.getPendingWarrants.any (fun w0 => w0.nonce = w.warrantId)
    · exact h2
    · exfalso
      apply hne
      have h2f : l.getPendingWarrants.any (fun w0 => w0.nonce = w.warrantId) = false := by
        simpa using h2
      by_cases h1 : l.isWarrantExecuted w.warrantId
      · simp [execute, h1]
      · simp [execute, h1, h2f]

/-- Witness for C2 amended: the concrete ghost sweep leaves the warrants
table unchanged, and the concrete filesystem-changing `execute` call had
its warrant pending. -/
theorem removal_warrant_discipline_witness :
    (findAndPurgeGhosts Ledger.empty [] [ghostName] [ghostName]
        JanitorReport.new 3).1.warrants = Ledger.empty.warrants ∧
    foreignLedger.getPendingWarrants.any
      (fun w0 => w0.nonce = foreignWarrant.warrantId) = true :=
  ⟨removal_warrant_discipline.1 Ledger.empty [] [ghostName] [ghostName] JanitorReport.new 3,
    removal_warrant_discipline.2 foreignLedger ["TFT_x"] foreignWarrant "exec" 7 (by decide)⟩

/-! ## L2 image cache lemmas -/

theorem lookupImage_none_iff (cache : List (Nat × ImageBlockE)) (k : Nat) :
    lookupImage cache k = none ↔ k ∉ keysI cache := by
  induction cache with
  | nil => simp [lookupImage, keysI]
  | cons p c ih =>
      by_cases h : p.1 = k
      · rw [lookupImage, List.find?_cons_of_pos _ (by simp [h])]
        simp [keysI, h]
      · rw [lookupImage, List.find?_cons_of_neg _ (by simp [h])]
        have hk : ¬ (k = p.1) := fun hk => h hk.symm
        simp only [keysI, List.map_cons, List.mem_cons, not_or, hk, not_false_iff, true_and]
        exact ih

theorem lookupImage_some_of_mem (cache : List (Nat × ImageBlockE)) (k : Nat)
    (h : k ∈ keysI cache) : ∃ b, lookupImage cache k = some b := by
  rcases ho : lookupImage cache k with _ | b
  · exact absurd ((lookupImage_none_iff cache k).mp ho) (by simpa using h)
  · exact ⟨b, rfl⟩

theorem removeImage_eq_self (cache : List (Nat × ImageBlockE)) (k : Nat)
    (h : k ∉ keysI cache) : removeImage cache k = cache := by
  apply List.filter_eq_self.mpr
  intro p hp
  simp only [decide_eq_true_eq]
  intro hpk
  exact h (List.mem_map.mpr ⟨p, hp, hpk⟩)

theorem removeImage_cons_drop (p : Nat × ImageBlockE) (c : List (Nat × ImageBlockE)) (k : Nat)
    (h : p.1 = k) : removeImage (p :: c) k = removeImage c k := by
  simp [removeImage, List.filter_cons, h]

theorem removeImage_cons_keep (p : Nat × ImageBlockE) (c : List (Nat × ImageBlockE)) (k : Nat)
    (h : ¬ p.1 = k) : removeImage (p :: c) k = p :: removeImage c k := by
  simp [removeImage, List.filter_cons, h]

theorem keysI_removeImage (cache : List (Nat × ImageBlockE)) (k : Nat) :
    keysI (removeImage cache k) = (keysI cache).filter (fun x => x ≠ k) := by
  induction cache with
  | nil => rfl
  | cons p c ih =>
      by_cases h : p.1 = k
      · rw [removeImage_cons_drop p c k h, ih]
        simp [keysI, List.filter_cons, h]
      · rw [removeImage_cons_keep p c k h]
        have : keysI (p :: removeImage c k) = p.1 :: keysI (removeImage c k) := rfl
        rw [this, ih]
        simp [keysI, List.filter_cons, h]

theorem sumImg_removeImage (cache : List (Nat × ImageBlockE)) (k : Nat) (b : ImageBlockE)
    (hnodup : (keysI cache).Nodup) (hfind : lookupImage cache k = some b) :
    sumImg (removeImage cache k) + b.file_size = sumImg cache := by
  induction cache with
  | nil => simp [lookupImage] at hfind
  | cons p c ih =>
      have hcons := List.nodup_cons.mp (show (p.1 :: keysI c).Nodup from hnodup)
      by_cases h : p.1 = k
      · have hb : b = p.2 := by
          rw [lookupImage, List.find?_cons_of_pos _ (by simp [h])] at hfind
          simpa using hfind.symm
        have hknot : k ∉ keysI c := by rw [← h]; exact hcons.1
        rw [removeImage_cons_drop p c k h, removeImage_eq_self c k hknot, hb]
        simp only [sumImg, List.map_cons, List.sum_cons]
        omega
      · have hfind2 : lookupImage c k = some b := by
          rw [lookupImage, List.find?_cons_of_neg _ (by simp [h])] at hfind
          exact hfind
        have hrec := ih (by simpa [keysI] using hcons.2) hfind2
        rw [removeImage_cons_keep p c k h]
        simp only [sumImg, List.map_cons, List.sum_cons] at hrec ⊢
        omega

theorem evictLoop_nil (cache : List (Nat × ImageBlockE)) (usage needed freed : Nat) :
    evictLoop cache [] usage needed freed =
      { cache := cache, order := [], usage := usage, freed := freed } := rfl

theorem evictLoop_cons_stop (cache : List (Nat × ImageBlockE)) (k : Nat) (rest : List Nat)
    (usage needed freed : Nat) (h : needed ≤ freed) :
    evictLoop cache (k :: rest) usage needed freed =
      { cache := cache, order := k :: rest, usage := usage, freed := freed } := by
  simp [evictLoop, h]

theorem evictLoop_cons_none (cache : List (Nat × ImageBlockE)) (k : Nat) (rest : List Nat)
    (usage needed freed : Nat) (h : ¬ needed ≤ freed) (hl : lookupImage cache k = none) :
    evictLoop cache (k :: rest) usage needed freed =
      evictLoop cache rest usage needed freed := by
  simp [evictLoop, h, hl]

theorem evictLoop_cons_some (cache : List (Nat × ImageBlockE)) (k : Nat) (rest : List Nat)
    (usage needed freed : Nat) (b : ImageBlockE) (h : ¬ needed ≤ freed)
    (hl : lookupImage cache k = some b) :
    evictLoop cache (k :: rest) usage needed freed =
      evictLoop (removeImage cache k) rest (usage - b.file_size) needed
        (freed + b.file_size) := by
  simp [evictLoop, h, hl]

theorem evictLoop_freed_mono (order : List Nat) :
    ∀ (cache : List (Nat × ImageBlockE)) (usage needed freed : Nat),
      freed ≤ (evictLoop cache order usage needed freed).freed := by
  induction order with
  | nil => intro cache usage needed freed; rw [evictLoop_nil]
  | cons k rest ih =>
      intro cache usage needed freed
      by_cases h : needed ≤ freed
      · rw [evictLoop_cons_stop cache k rest usage needed freed h]
      · rcases hl : lookupImage cache k with _ | b
        · rw [evictLoop_cons_none cache k rest usage needed freed h hl]
          exact ih cache usage needed freed
        · rw [evictLoop_cons_some cache k rest usage needed freed b h hl]
          calc freed ≤ freed + b.file_size := Nat.le_add_right _ _
            _ ≤ _ := ih (removeImage cache k) (usage - b.file_size) needed
                (freed + b.file_size)

theorem evictLoop_take_drop (order : List Nat) :
    ∀ (cache : List (Nat × ImageBlockE)) (usage needed freed : Nat),
      ∃ n, (evictLoop cache order usage needed freed).order = order.drop n ∧
        (evictLoop cache order usage needed freed).cache =
          (order.take n).foldl removeImage cache ∧
        (evictLoop cache order usage needed freed).usage =
          usage - ((evictLoop cache order usage needed freed).freed - freed) ∧
        (needed ≤ (evictLoop cache order usage needed freed).freed ∨
          (evictLoop cache order usage needed freed).order = []) := by
  induction order with
  | nil =>
      intro cache usage needed freed
      rw [evictLoop_nil]
      exact ⟨0, rfl, rfl, by simp, Or.inr rfl⟩
  | cons k rest ih =>
      intro cache usage needed freed
      by_cases h : needed ≤ freed
      · rw [evictLoop_cons_stop cache k rest usage needed freed h]
        exact ⟨0, rfl, rfl, by simp, Or.inl h⟩
      · rcases hl : lookupImage cache k with _ | b
        · rw [evictLoop_cons_none cache k rest usage needed freed h hl]
          obtain ⟨n, h1, h2, h3, h4⟩ := ih cache usage needed freed
          refine ⟨n + 1, ?_, ?_, h3, h4⟩
          · simpa using h1
          · rw [h2]
            simp only [List.take_succ_cons, List.foldl_cons]
            rw [removeImage_eq_self cache k ((lookupImage_none_iff cache k).mp hl)]
        · rw [evictLoop_cons_some cache k rest usage needed freed b h hl]
          obtain ⟨n, h1, h2, h3, h4⟩ :=
            ih (removeImage cache k) (usage - b.file_size) needed (freed + b.file_size)
          have hmono := evictLoop_freed_mono rest (removeImage cache k)
            (usage - b.file_size) needed (freed + b.file_size)
          refine ⟨n + 1, ?_, ?_, ?_, h4⟩
          · simpa using h1
          · rw [h2]
            simp [List.take_succ_cons, List.foldl_cons]
          · rw [h3]
            omega

/-! ## C7 — L2 eviction pops the LRU head; hits promote to the tail -/

/-- C7: the eviction loop consumes a prefix of the LRU deque — the
resulting deque is `order.drop n` and the resulting map is obtained by
removing, in order, exactly the keys of `order.take n`, so every entry
evicted was at the head of the deque at the moment of its removal; the
byte counter drops by exactly the freed amount, and the loop stops only
once enough is freed or the deque is exhausted. Every `get_image` hit
moves its key to the deque tail. -/
theorem l2_evicts_lru_head (cache : List (Nat × ImageBlockE)) (order : List Nat)
    (usage needed : Nat) (s : EliteCacheState) (k : Nat) (b : ImageBlockE)
    (hhit : lookupImage s.image_cache k = some b) :
    (∃ n, (evictLoop cache order usage needed 0).order = order.drop n ∧
      (evictLoop cache order usage needed 0).cache =
        (order.take n).foldl removeImage cache ∧
      (evictLoop cache order usage needed 0).usage =
        usage - (evictLoop cache order usage needed 0).freed ∧
      (needed ≤ (evictLoop cache order usage needed 0).freed ∨
        (evictLoop cache order usage needed 0).order = [])) ∧
    (getImage s k).1.image_access_order =
      s.image_access_order.filter (fun x => x ≠ k) ++ [k] ∧
    (getImage s k).2 = some b := by
  refine ⟨?_, ?_, ?_⟩
  · obtain ⟨n, h1, h2, h3, h4⟩ := evictLoop_take_drop order cache usage needed 0
    exact ⟨n, h1, h2, by simpa using h3, h4⟩
  · simp [getImage, hhit]
  · simp [getImage, hhit]

/-- Witness for C7 at a concrete one-entry cache: evicting leaves the
characterized state and a hit on key 1 moves it to the tail. -/
theorem l2_evicts_lru_head_witness :
    (∃ n, (evictLoop oneBlockState.image_cache oneBlockState.image_access_order 1000 500
        0).order = oneBlockState.image_access_order.drop n ∧
      (evictLoop oneBlockState.image_cache oneBlockState.image_access_order 1000 500 0).cache =
        (oneBlockState.image_access_order.take n).foldl removeImage oneBlockState.image_cache ∧
      (evictLoop oneBlockState.image_cache oneBlockState.image_access_order 1000 500 0).usage =
        1000 - (evictLoop oneBlockState.image_cache oneBlockState.image_access_order 1000 500
          0).freed ∧
      (500 ≤ (evictLoop oneBlockState.image_cache oneBlockState.image_access_order 1000 500
          0).freed ∨
        (evictLoop oneBlockState.image_cache oneBlockState.image_access_order 1000 500
          0).order = [])) ∧
    (getImage oneBlockState 1).1.image_access_order =
      oneBlockState.image_access_order.filter (fun x => x ≠ 1) ++ [1] ∧
    (getImage oneBlockState 1).2 = some blockA :=
  l2_evicts_lru_head oneBlockState.image_cache oneBlockState.image_access_order 1000 500
    oneBlockState 1 blockA (by decide)

/-! ## C10 — L2 representation invariant preservation -/

theorem lookupImage_some_mem (cache : List (Nat × ImageBlockE)) (k : Nat) (b : ImageBlockE)
    (h : lookupImage cache k = some b) : k ∈ keysI cache := by
  by_contra hk
  rw [(lookupImage_none_iff cache k).mpr hk] at h
  cases h

theorem sumImg_append (l1 l2 : List (Nat × ImageBlockE)) :
    sumImg (l1 ++ l2) = sumImg l1 + sumImg l2 := by
  simp [sumImg]

theorem keysI_append (l1 l2 : List (Nat × ImageBlockE)) :
    keysI (l1 ++ l2) = keysI l1 ++ keysI l2 := by
  simp [keysI]

theorem filter_ne_not_mem (order : List Nat) (k : Nat) :
    k ∉ order.filter (fun x => x ≠ k) := by
  intro h
  have := List.of_mem_filter h
  simp at this

theorem nodup_filter_append_singleton (order : List Nat) (k : Nat) (h : order.Nodup) :
    (order.filter (fun x => x ≠ k) ++ [k]).Nodup := by
  rw [List.nodup_append]
  refine ⟨h.filter _, List.nodup_singleton k, ?_⟩
  intro a ha hb
  rw [List.mem_singleton] at hb
  subst hb
  exact filter_ne_not_mem order a ha

theorem filter_bne_eq_filter_ne (l : List Nat) (k : Nat) :
    l.filter (fun x => x != k) = l.filter (fun x => x ≠ k) := by
  induction l with
  | nil => rfl
  | cons a l ih => by_cases h : a = k <;> simp [List.filter_cons, h, ih]

theorem filter_ne_self_of_not_mem (l : List Nat) (k : Nat) (h : k ∉ l) :
    l.filter (fun x => x ≠ k) = l := by
  apply List.filter_eq_self.mpr
  intro a ha
  simp only [decide_eq_true_eq]
  intro hak
  exact h (hak ▸ ha)

theorem filter_ne_cons_self (k : Nat) (rest : List Nat) (h : k ∉ rest) :
    (k :: rest).filter (fun x => x ≠ k) = rest := by
  have h1 : (k :: rest).filter (fun x => x ≠ k) = rest.filter (fun x => x ≠ k) := by
    simp [List.filter_cons]
  rw [h1, filter_ne_self_of_not_mem rest k h]

theorem promote_perm (order keys : List Nat) (k : Nat) (hnd : order.Nodup)
    (hperm : order.Perm keys) (hk : k ∈ order) :
    (order.filter (fun x => x ≠ k) ++ [k]).Perm keys := by
  have h1 : order.erase k = order.filter (fun x => x ≠ k) := by
    rw [hnd.erase_eq_filter]
    exact filter_bne_eq_filter_ne order k
  have h2 : order.Perm (k :: order.erase k) := List.perm_cons_erase hk
  have h3 : (order.filter (fun x => x ≠ k) ++ [k]).Perm
      (k :: order.filter (fun x => x ≠ k)) := List.perm_append_singleton k _
  refine h3.trans ?_
  rw [← h1]
  exact h2.symm.trans hperm

theorem evictLoop_preserves_inv (order : List Nat) :
    ∀ (cache : List (Nat × ImageBlockE)) (usage needed freed : Nat),
      order.Nodup → order.Perm (keysI cache) → usage = sumImg cache →
      ((evictLoop cache order usage needed freed).order.Nodup ∧
        (evictLoop cache order usage needed freed).order.Perm
          (keysI (evictLoop cache order usage needed freed).cache) ∧
        (evictLoop cache order usage needed freed).usage =
          sumImg (evictLoop cache order usage needed freed).cache) := by
  induction order with
  | nil =>
      intro cache usage needed freed h1 h2 h3
      rw [evictLoop_nil]
      exact ⟨h1, h2, h3⟩
  | cons k rest ih =>
      intro cache usage needed freed h1 h2 h3
      by_cases h : needed ≤ freed
      · rw [evictLoop_cons_stop cache k rest usage needed freed h]
        exact ⟨h1, h2, h3⟩
      · have hkmem : k ∈ keysI cache := h2.mem_iff.mp (List.mem_cons_self k rest)
        obtain ⟨b, hl⟩ := lookupImage_some_of_mem cache k hkmem
        rw [evictLoop_cons_some cache k rest usage needed freed b h hl]
        have hcons := List.nodup_cons.mp h1
        have hkeysnd : (keysI cache).Nodup := h2.nodup_iff.mp h1
        have hsum := sumImg_removeImage cache k b hkeysnd hl
        apply ih
        · exact hcons.2
        · -- rest is a permutation of the keys with k removed
          have hstep : (((k :: rest).filter (fun x => x ≠ k))).Perm
              ((keysI cache).filter (fun x => x ≠ k)) := h2.filter _
          rw [filter_ne_cons_self k rest hcons.1] at hstep
          rw [keysI_removeImage]
          exact hstep
        · omega

theorem putImageInsert_preserves_inv (s : EliteCacheState) (b : ImageBlockE)
    (hinv : L2Inv s) : L2Inv (putImageInsert s b) := by
  obtain ⟨h1, h2, h3⟩ := hinv
  have hkeysnd : (keysI s.image_cache).Nodup := h2.nodup_iff.mp h1
  have hins : insertImage s.image_cache b.page_id b =
      removeImage s.image_cache b.page_id ++ [(b.page_id, b)] := rfl
  rcases hl : lookupImage s.image_cache b.page_id with _ | old
  · have hnot : b.page_id ∉ keysI s.image_cache := (lookupImage_none_iff _ _).mp hl
    have hself : removeImage s.image_cache b.page_id = s.image_cache :=
      removeImage_eq_self _ _ hnot
    refine ⟨?_, ?_, ?_⟩ <;>
      simp only [putImageInsert, hl, hins, hself]
    · rw [List.nodup_append]
      refine ⟨h1, List.nodup_singleton _, ?_⟩
      intro a ha hb
      rw [List.mem_singleton] at hb
      subst hb
      exact hnot (h2.mem_iff.mp ha)
    · rw [keysI_append]
      exact h2.append_right (keysI [(b.page_id, b)])
    · rw [sumImg_append, ← h3]
      rfl
  · have hmem : b.page_id ∈ keysI s.image_cache := lookupImage_some_mem _ _ _ hl
    have hsum := sumImg_removeImage s.image_cache b.page_id old hkeysnd hl
    refine ⟨?_, ?_, ?_⟩ <;>
      simp only [putImageInsert, hl, hins]
    · exact nodup_filter_append_singleton _ _ h1
    · rw [keysI_append, keysI_removeImage]
      have hfperm : ((s.image_access_order.filter (fun x => x ≠ b.page_id))).Perm
          ((keysI s.image_cache).filter (fun x => x ≠ b.page_id)) := h2.filter _
      exact hfperm.append_right (keysI [(b.page_id, b)])
    · rw [sumImg_append]
      have : sumImg [(b.page_id, b)] = b.file_size := by simp [sumImg]
      rw [this]
      omega

theorem evictImageLru_preserves_inv (s : EliteCacheState) (needed : Nat)
    (hinv : L2Inv s) : L2Inv (evictImageLru s needed).1 := by
  obtain ⟨h1, h2, h3⟩ := hinv
  obtain ⟨i1, i2, i3⟩ := evictLoop_preserves_inv s.image_access_order s.image_cache
    s.image_memory_usage needed 0 h1 h2 h3
  unfold evictImageLru
  by_cases hf : (evictLoop s.image_cache s.image_access_order s.image_memory_usage needed
      0).freed < needed <;>
    simp only [hf, if_pos, if_neg, not_false_iff] <;>
    exact ⟨i1, i2, i3⟩

theorem putImage_preserves_inv (s : EliteCacheState) (b : ImageBlockE)
    (hinv : L2Inv s) : L2Inv (putImage s b).1 := by
  unfold putImage
  by_cases hover : maxImageMemory < s.image_memory_usage + b.file_size
  · simp only [hover, if_pos]
    rcases hres : evictImageLru s b.file_size with ⟨s', ex⟩
    have hs' : L2Inv s' := by
      have := evictImageLru_preserves_inv s b.file_size hinv
      rw [hres] at this
      exact this
    cases ex
    · exact hs'
    · exact putImageInsert_preserves_inv s' b hs'
  · simp only [hover, if_neg, not_false_iff]
    exact putImageInsert_preserves_inv s b hinv

theorem getImage_preserves_inv (s : EliteCacheState) (k : Nat)
    (hinv : L2Inv s) : L2Inv (getImage s k).1 := by
  obtain ⟨h1, h2, h3⟩ := hinv
  rcases hl : lookupImage s.image_cache k with _ | b
  · simpa [getImage, hl] using ⟨h1, h2, h3⟩
  · have hmem : k ∈ s.image_access_order :=
      h2.mem_iff.mpr (lookupImage_some_mem _ _ _ hl)
    refine ⟨?_, ?_, ?_⟩ <;> simp only [getImage, hl]
    · exact nodup_filter_append_singleton _ _ h1
    · exact promote_perm s.image_access_order (keysI s.image_cache) k h1 h2 hmem
    · exact h3

theorem applyL2Op_preserves_inv (s : EliteCacheState) (op : L2Op)
    (hinv : L2Inv s) : L2Inv (applyL2Op s op) := by
  cases op with
  | put b => exact putImage_preserves_inv s b hinv
  | get k => exact getImage_preserves_inv s k hinv
  | evict needed => exact evictImageLru_preserves_inv s needed hinv
  | clear => exact ⟨List.nodup_nil, List.Perm.refl _, rfl⟩

theorem applyL2Ops_preserves_inv (ops : List L2Op) :
    ∀ s : EliteCacheState, L2Inv s → L2Inv (applyL2Ops s ops) := by
  induction ops with
  | nil => intro s h; exact h
  | cons op ops ih =>
      intro s h
      exact ih (applyL2Op s op) (applyL2Op_preserves_inv s op h)

/-- C10: after any sequence of `put_image`, `get_image`, L2 eviction and
`clear` operations from the freshly created cache, the L2 access-order
deque holds exactly the keys of the image map, each exactly once, and
the tracked image memory usage equals the sum of `file_size` over the
resident blocks. -/
theorem l2_invariant_holds (ops : List L2Op) :
    L2Inv (applyL2Ops EliteCacheState.new ops) :=
  applyL2Ops_preserves_inv ops EliteCacheState.new
    ⟨List.nodup_nil, List.Perm.refl _, rfl⟩

/-! ## C8 — Oversized put -/

theorem evictLoop_exhausts (order : List Nat) :
    ∀ (cache : List (Nat × ImageBlockE)) (usage needed freed : Nat),
      order.Nodup → order.Perm (keysI cache) → usage = sumImg cache →
      freed + usage < needed →
      evictLoop cache order usage needed freed =
        { cache := [], order := [], usage := 0, freed := freed + usage } := by
  induction order with
  | nil =>
      intro cache usage needed freed h1 h2 h3 h4
      have hkeys : keysI cache = [] := h2.symm.eq_nil
      have hcache : cache = [] := by
        have := congrArg List.length hkeys
        simpa [keysI, List.length_eq_zero] using this
      subst hcache
      rw [evictLoop_nil]
      have husage : usage = 0 := by simpa [sumImg] using h3
      subst husage
      rfl
  | cons k rest ih =>
      intro cache usage needed freed h1 h2 h3 h4
      have h : ¬ needed ≤ freed := by omega
      have hkmem : k ∈ keysI cache := h2.mem_iff.mp (List.mem_cons_self k rest)
      obtain ⟨b, hl⟩ := lookupImage_some_of_mem cache k hkmem
      rw [evictLoop_cons_some cache k rest usage needed freed b h hl]
      have hcons := List.nodup_cons.mp h1
      have hkeysnd : (keysI cache).Nodup := h2.nodup_iff.mp h1
      have hsum := sumImg_removeImage cache k b hkeysnd hl
      have hperm2 : rest.Perm (keysI (removeImage cache k)) := by
        have hstep : (((k :: rest).filter (fun x => x ≠ k))).Perm
            ((keysI cache).filter (fun x => x ≠ k)) := h2.filter _
        rw [filter_ne_cons_self k rest hcons.1] at hstep
        rw [keysI_removeImage]
        exact hstep
      have hrec := ih (removeImage cache k) (usage - b.file_size) needed
        (freed + b.file_size) hcons.2 hperm2 (by omega) (by omega)
      rw [hrec]
      have harith : freed + b.file_size + (usage - b.file_size) = freed + usage := by omega
      rw [harith]

/-- C8 counterexample: the 500 MiB L2 tier holds one 1000-byte block;
putting a 600 MiB block does fail with the out-of-memory error, but only
after eviction has removed every resident entry — the tier is emptied,
contradicting the claim that the previously resident entries are not all
removed. -/
theorem oversized_put_counterexample :
    oneBlockState.image_cache ≠ [] ∧
    (putImage oneBlockState blockBig).2 = Except.error "Cannot free enough image memory" ∧
    (putImage oneBlockState blockBig).1.image_cache = [] := by
  refine ⟨by decide, by decide, by decide⟩

/-- C8 amended: a put whose block cannot fit even after evicting
everything (tracked usage below the block size while over the limit)
returns the out-of-memory error, but the eviction it first runs removes
every resident entry: the tier's map, LRU deque and byte counter are all
left empty. -/
theorem oversized_put_empties_tier (s : EliteCacheState) (b : ImageBlockE)
    (hinv : L2Inv s)
    (hover : maxImageMemory < s.image_memory_usage + b.file_size)
    (hbig : s.image_memory_usage < b.file_size) :
    (putImage s b).2 = Except.error "Cannot free enough image memory" ∧
    (putImage s b).1.image_cache = [] ∧
    (putImage s b).1.image_access_order = [] ∧
    (putImage s b).1.image_memory_usage = 0 := by
  obtain ⟨h1, h2, h3⟩ := hinv
  have hex := evictLoop_exhausts s.image_access_order s.image_cache s.image_memory_usage
    b.file_size 0 h1 h2 h3 (by omega)
  have hlru : evictImageLru s b.file_size =
      ({ s with image_cache := [], image_access_order := [], image_memory_usage := 0 },
        Except.error "Cannot free enough image memory") := by
    unfold evictImageLru
    rw [hex]
    have hlt : 0 + s.image_memory_usage < b.file_size := by omega
    simp [hlt, hbig]
  unfold putImage
  simp [hover, hlru, hbig]

/-- Witness for C8 amended at the concrete one-entry tier. -/
theorem oversized_put_empties_tier_witness :
    (putImage oneBlockState blockBig).2 = Except.error "Cannot free enough image memory" ∧
    (putImage oneBlockState blockBig).1.image_cache = [] ∧
    (putImage oneBlockState blockBig).1.image_access_order = [] ∧
    (putImage oneBlockState blockBig).1.image_memory_usage = 0 :=
  oversized_put_empties_tier oneBlockState blockBig
    ⟨by decide, by decide, by decide⟩ (by decide) (by decide)

/-! ## C9 — Backpressure admission -/

theorem shouldRejectWork_iff (s : BackpressureState) (item : WorkItemE) :
    shouldRejectWork s item = true ↔
      ((17 : ℚ)/20 < memoryPressure s.cache ∨
        20 < s.work_queue.length ∨
        ((item.work_type = WorkTypeE.SemanticExtraction ∨
            item.work_type = WorkTypeE.Both) ∧
          canAcceptSemanticWork s.cache = false) ∨
        (item.work_type = WorkTypeE.ImageRendering ∧
          canAcceptImageWork s.cache = false) ∨
        s.current_worker_limit ≤ s.active_workers) := by
  unfold shouldRejectWork
  split_ifs with hm hq ht hw
  · simp only [true_iff]
    exact Or.inl hm
  · simp only [true_iff]
    exact Or.inr (Or.inl hq)
  · simp only [true_iff]
    rcases hty : item.work_type with _ | _ | _
    · rw [hty] at ht
      simp only [tierRejects, Bool.not_eq_true'] at ht
      exact Or.inr (Or.inr (Or.inl ⟨Or.inl rfl, by simpa using ht⟩))
    · rw [hty] at ht
      simp only [tierRejects, Bool.not_eq_true'] at ht
      exact Or.inr (Or.inr (Or.inr (Or.inl ⟨rfl, by simpa using ht⟩)))
    · rw [hty] at ht
      simp only [tierRejects, Bool.not_eq_true'] at ht
      exact Or.inr (Or.inr (Or.inl ⟨Or.inr rfl, by simpa using ht⟩))
  · simp only [true_iff]
    exact Or.inr (Or.inr (Or.inr (Or.inr hw)))
  · simp only [Bool.false_eq_true, false_iff]
    rintro (h | h | ⟨hk, hacc⟩ | ⟨hk, hacc⟩ | h)
    · exact hm h
    · exact hq h
    · apply ht
      rcases hk with hk | hk <;> rw [hk] <;> simp [tierRejects, hacc]
    · apply ht
      rw [hk]
      simp [tierRejects, hacc]
    · exact hw h

theorem memoryPressure_imageFull_le :
    memoryPressure imageFullController.cache ≤ 17/20 := by
  norm_num [memoryPressure, imageFullController]

theorem memoryPressure_imageFull_not_lt :
    ¬ ((17 : ℚ)/20 < memoryPressure imageFullController.cache) :=
  not_lt.mpr memoryPressure_imageFull_le

theorem shouldReject_both_false :
    shouldRejectWork imageFullController bothItem = false := by
  unfold shouldRejectWork
  rw [if_neg memoryPressure_imageFull_not_lt]
  decide

theorem submit_both_ok :
    (submitWork imageFullController bothItem).2 = Except.ok () := by
  simp [submitWork, shouldReject_both_false]

theorem shouldReject_image_true :
    shouldRejectWork imageFullController imageItem = true := by
  unfold shouldRejectWork
  rw [if_neg memoryPressure_imageFull_not_lt]
  decide

/-- C9 counterexample: with the image tier exactly at its 80% threshold
(`can_accept_image_work` false), memory pressure well under 0.85, an
empty queue and free workers, a `Both`-kind item is accepted — the
source's `match` runs only its first arm for `Both`, so the image tier
is never consulted, contradicting the claimed "both tiers for kind
Both" rejection rule. -/
theorem both_kind_tier_counterexample :
    canAcceptImageWork imageFullController.cache = false ∧
    memoryPressure imageFullController.cache ≤ 17/20 ∧
    shouldRejectWork imageFullController bothItem = false ∧
    (submitWork imageFullController bothItem).2 = Except.ok () :=
  ⟨by decide, memoryPressure_imageFull_le, shouldReject_both_false, submit_both_ok⟩

/-- C9 amended: `submit_work` rejects exactly when memory pressure
exceeds 0.85, or the queue holds more than 20 items, or the tier check
fails — for `SemanticExtraction` and for `Both` the semantic tier's
`can_accept` (the `match`'s first arm wins, so `Both` never consults the
image tier), for `ImageRendering` the image tier's — or there is no
worker headroom; on rejection the rejected counter increments; hence
every accepted item sees memory pressure at most 0.85 and
`active_workers < worker_limit` at submission time. -/
theorem submit_reject_characterization (s : BackpressureState) (item : WorkItemE) :
    (shouldRejectWork s item = true ↔
      ((17 : ℚ)/20 < memoryPressure s.cache ∨
        20 < s.work_queue.length ∨
        ((item.work_type = WorkTypeE.SemanticExtraction ∨
            item.work_type = WorkTypeE.Both) ∧
          canAcceptSemanticWork s.cache = false) ∨
        (item.work_type = WorkTypeE.ImageRendering ∧
          canAcceptImageWork s.cache = false) ∨
        s.current_worker_limit ≤ s.active_workers)) ∧
    ((submitWork s item).2 = Except.ok () →
      memoryPressure s.cache ≤ 17/20 ∧ s.active_workers < s.current_worker_limit) ∧
    (shouldRejectWork s item = true →
      (submitWork s item).1.rejected_due_to_pressure = s.rejected_due_to_pressure + 1) := by
  refine ⟨shouldRejectWork_iff s item, ?_, ?_⟩
  · intro hok
    have hrej : shouldRejectWork s item = false := by
      by_contra hc
      have hc2 : shouldRejectWork s item = true := by simpa using hc
      simp [submitWork, hc2] at hok
    have hnot : ¬ ((17 : ℚ)/20 < memoryPressure s.cache ∨
        20 < s.work_queue.length ∨
        ((item.work_type = WorkTypeE.SemanticExtraction ∨
            item.work_type = WorkTypeE.Both) ∧
          canAcceptSemanticWork s.cache = false) ∨
        (item.work_type = WorkTypeE.ImageRendering ∧
          canAcceptImageWork s.cache = false) ∨
        s.current_worker_limit ≤ s.active_workers) := by
      rw [← shouldRejectWork_iff s item]
      simp [hrej]
    push_neg at hnot
    exact ⟨hnot.1, hnot.2.2.2.2⟩
  · intro h
    simp [submitWork, h]

/-- Witness for C9 amended: the `Both` item accepted at the image-full
state sees low pressure and worker headroom, and a rejected
`ImageRendering` item bumps the rejection counter. -/
theorem submit_reject_characterization_witness :
    (memoryPressure imageFullController.cache ≤ 17/20 ∧
      imageFullController.active_workers < imageFullController.current_worker_limit) ∧
    (submitWork imageFullController imageItem).1.rejected_due_to_pressure =
      imageFullController.rejected_due_to_pressure + 1 :=
  ⟨(submit_reject_characterization imageFullController bothItem).2.1 submit_both_ok,
    (submit_reject_characterization imageFullController imageItem).2.2
      shouldReject_image_true⟩

end TachFileTo
